import Mathlib

set_option exponentiation.threshold 1200
set_option maxRecDepth 40000

/-!
Verification development for the AIM client (`src/project0/aim_client.py`).

The Python module is shallowly embedded:

* Strings are Lean `String`s; where the Python code works with regular
  expressions over text we work over `List Char`, converting once with
  `String.data`.  The hand-compiled scanners below implement exactly the
  backtracking semantics of the concrete regular expressions used by the
  source (`_NUMBER`, the "total gibbs" search, the `\bph\b` search and the
  full-line tabular match); each definition documents the pattern it
  implements and why the deterministic formulation coincides with the
  backtracking one.
* Python `float` values are modelled exactly: every literal the code ever
  converts is a decimal/scientific literal, whose value is a rational
  number.  `PyFloat` keeps that rational exactly and models the one
  observable non-rational behaviour, overflow to `inf`/`-inf`, using the
  IEEE-754 double round-to-nearest overflow threshold `2^1024 - 2^970`.
  (Rounding of in-range literals is not modelled; no claim distinguishes a
  literal from its rounded double, while overflow is observable because
  `str(inf) = "inf"` no longer matches the numeric pattern.)
* Python `dict`s (insertion ordered, assignment keeps the position of an
  existing key) are association lists with the operations `dset`,
  `dsetdefault`, `dget?`.
* The HTML form fetched by `requests`/BeautifulSoup is modelled as the
  structured value `Form` (document-ordered elements with their
  attributes); the network POST and the `<pre>`-text extraction of the
  response are abstracted as an oracle `Payload → String`.
* Whitespace / word / case classes of Python's `re` and `str` methods are
  modelled over their ASCII behaviour plus the common extra separator code
  points; every concrete input appearing in the claims is ASCII.
* Code that can raise returns `Except`: `parse_aim_output` calls `float()`
  outside any `try` in two places, so its embedding returns
  `Except Unit AimResults` and we prove the error case unreachable.
-/

namespace Aim

/-! ## Character classes -/

/-- Python `\s` (and `str.isspace`) restricted to the code points the model
covers: the ASCII whitespace characters plus the common separator code
points.  All inputs in the claims are ASCII. -/
def pySpace (c : Char) : Bool :=
  c = ' ' ∨ c = '\t' ∨ c = '\n' ∨ c = '\r' ∨ c = '\x0b' ∨ c = '\x0c' ∨
  c = '\x1c' ∨ c = '\x1d' ∨ c = '\x1e' ∨ c = '\x1f' ∨ c = '\x85' ∨
  c = ' ' ∨ c = ' ' ∨ c = ' '

/-- Python `str.splitlines` boundary characters (ASCII + common ones);
`\r\n` is handled separately as a single boundary. -/
def pyLineBreak (c : Char) : Bool :=
  c = '\n' ∨ c = '\r' ∨ c = '\x0b' ∨ c = '\x0c' ∨ c = '\x1c' ∨
  c = '\x1d' ∨ c = '\x1e' ∨ c = '\x85' ∨ c = ' ' ∨ c = ' '

/-- Python `\w` (word character) over ASCII: letters, digits, underscore. -/
def pyWord (c : Char) : Bool :=
  ('a' ≤ c ∧ c ≤ 'z') ∨ ('A' ≤ c ∧ c ≤ 'Z') ∨ ('0' ≤ c ∧ c ≤ '9') ∨ c = '_'

/-- ASCII decimal digit (`\d` over ASCII). -/
def digitC (c : Char) : Bool := '0' ≤ c ∧ c ≤ '9'

/-- The character class `[A-Za-z0-9_+\-()\[\]/]` of the tabular-line
pattern in `parse_aim_output`. -/
def nameC (c : Char) : Bool :=
  ('a' ≤ c ∧ c ≤ 'z') ∨ ('A' ≤ c ∧ c ≤ 'Z') ∨ ('0' ≤ c ∧ c ≤ '9') ∨
  c = '_' ∨ c = '+' ∨ c = '-' ∨ c = '(' ∨ c = ')' ∨ c = '[' ∨ c = ']' ∨ c = '/'

/-! ## List helpers -/

/-- Greedy `span`: longest prefix satisfying `p`, with the remainder.
Own recursion (rather than `List.span`) for clean rewriting equations. -/
def takeW (p : Char → Bool) : List Char → List Char × List Char
  | [] => ([], [])
  | c :: t =>
    if p c then
      let r := takeW p t
      (c :: r.1, r.2)
    else ([], c :: t)

/-- Substring containment, Python's `needle in hay` on strings. -/
def subIn : List Char → List Char → Bool
  | [], needle => needle.isPrefixOf []
  | c :: t, needle => needle.isPrefixOf (c :: t) || subIn t needle

/-- `needle in hay` for Lean strings (Python `in` on `str`). -/
def strIn (needle hay : String) : Bool := subIn hay.data needle.data

/-- Value of a list of ASCII digit characters, most significant first. -/
def valDigits (ds : List Char) : Nat :=
  ds.foldl (fun a c => a * 10 + (c.toNat - 48)) 0

/-- Python `str.strip()` over the modelled whitespace class. -/
def pyStrip (cs : List Char) : List Char :=
  ((((cs.dropWhile pySpace).reverse).dropWhile pySpace)).reverse

/-- Python `str.strip()` on a Lean string (the same whitespace class:
unlike `String.trim`, Python also strips `\x0b`, `\x0c`, `\x1c`-`\x1f`
and `\x85`). -/
def pyStripStr (s : String) : String := String.mk (pyStrip s.data)

/-- Python `str.splitlines`: split at line boundaries, `\r\n` counting as
one boundary, with no trailing empty line. -/
def splitLinesPy : List Char → List (List Char) :=
  go []
where
  go (acc : List Char) : List Char → List (List Char)
    | [] => if acc.isEmpty then [] else [acc.reverse]
    | '\r' :: '\n' :: t => acc.reverse :: go [] t
    | c :: t =>
      if pyLineBreak c then acc.reverse :: go [] t
      else go (c :: acc) t

/-! ## Python floats -/

/-- A Python `float` as produced by `float(<numeric literal>)`: the exact
rational value of the literal, or an overflow to `inf`/`-inf`. -/
inductive PyFloat where
  | finite (q : ℚ)
  | inf
  | ninf
deriving DecidableEq

/-- The IEEE-754 binary64 round-to-nearest overflow threshold: a real
value `x` converts to `inf` iff `x ≥ 2^1024 - 2^970` (the midpoint between
the largest finite double and `2^1024`; the tie rounds to even, i.e. up). -/
def fmax : ℚ := ((2 ^ 1024 - 2 ^ 970 : ℕ) : ℚ)

/-- Rounding of `float(...)` restricted to what the claims observe:
overflow clamps to `inf`/`-inf`, in-range values are kept exactly. -/
def clampF (q : ℚ) : PyFloat :=
  if fmax ≤ q then .inf else if q ≤ -fmax then .ninf else .finite q

/-- Exact value of a decimal literal: sign, integer digits, fractional
digits, exponent.  `ratOf false "1" "23" (-7)` is `1.23e-7`. -/
def ratOf (neg : Bool) (ids fds : List Char) (ex : ℤ) : ℚ :=
  let mAbs : ℤ := (valDigits ids * 10 ^ fds.length + valDigits fds : ℕ)
  let m : ℤ := if neg then -mAbs else mAbs
  let sh : ℤ := ex - fds.length
  if 0 ≤ sh then (m : ℚ) * (10 : ℚ) ^ sh.toNat
  else Rat.divInt m ((10 : ℤ) ^ (-sh).toNat)

/-- Leading-sign split used by the `float()` model. -/
def pySplitSign (cs : List Char) : Bool × List Char :=
  match cs with
  | c :: t => if c = '+' then (false, t) else if c = '-' then (true, t) else (false, c :: t)
  | [] => (false, [])

/-- Mantissa of a `float()` literal: digits with an optional dot
(`123`, `1.`, `.5`, `1.23`); at least one digit overall.  Returns
(integer digits, fraction digits, rest). -/
def pyMantissa? (cs : List Char) : Option (List Char × List Char × List Char) :=
  let ip := takeW digitC cs
  match ip.2 with
  | c :: cs3 =>
    if c = '.' then
      let fp := takeW digitC cs3
      if ip.1.isEmpty ∧ fp.1.isEmpty then none else some (ip.1, fp.1, fp.2)
    else if ip.1.isEmpty then none
    else some (ip.1, [], c :: cs3)
  | [] => if ip.1.isEmpty then none else some (ip.1, [], [])

/-- The tail after the mantissa of a `float()` literal: empty, or `e`/`E`
with an optional sign and mandatory digits, consuming the whole rest. -/
def pyExpTail : List Char → Option ℤ
  | [] => some 0
  | c :: t =>
    if c = 'e' ∨ c = 'E' then
      let sn2 := pySplitSign t
      let ed := takeW digitC sn2.2
      if ed.1.isEmpty ∨ ¬ ed.2.isEmpty then none
      else some (if sn2.1 then -(valDigits ed.1 : ℤ) else (valDigits ed.1 : ℤ))
    else none

/-- Model of the Python builtin `float : str → float` on the inputs this
program can feed it: surrounding whitespace, an optional sign and a
decimal/scientific literal (`123`, `1.`, `.5`, `1.23E-07`, ...).  Returns
`none` where `float()` raises `ValueError`.  (The `inf`/`nan` spellings
and digit underscores that `float()` also accepts never reach it here:
every call site passes a match of the `_NUMBER` pattern.) -/
def pyFloat? (cs : List Char) : Option PyFloat :=
  let sn := pySplitSign (pyStrip cs)
  (pyMantissa? sn.2).bind fun m =>
    (pyExpTail m.2.2).map fun e => clampF (ratOf sn.1 m.1 m.2.1 e)

/-! ## The `_NUMBER` pattern

`_NUMBER = r"[+-]?\d*\.?\d+(?:[Ee][+-]?\d+)?"`.

`numToken` returns the greedy match at the head of the input together with
the rest.  Backtracking notes justifying the deterministic formulation:
* `\d*\.?\d+` matches either `D+` (no usable dot) or `D* . D+`; when the
  dot is not followed by a digit the regex backtracks to giving `\d+` the
  last of the leading digits, so the matched text is exactly the leading
  digit run.
* the optional exponent group either matches `[Ee][+-]?\d+` greedily or is
  skipped; no following pattern element exists that could force a shorter
  match at the two call sites (end of the scalar patterns), and at the
  `$`-anchored tabular call site shorter alternatives only leave a longer
  non-empty remainder, so greedy-or-nothing is exact there too. -/

/-- The exponent part `(?:[Ee][+-]?\d+)?`, greedy: the consumed characters
and the rest. -/
def expTok : List Char → List Char × List Char
  | [] => ([], [])
  | c :: t =>
    if c = 'e' ∨ c = 'E' then
      match t with
      | s :: t2 =>
        if s = '+' ∨ s = '-' then
          let ed := takeW digitC t2
          if ed.1.isEmpty then ([], c :: t) else (c :: s :: ed.1, ed.2)
        else
          let ed := takeW digitC t
          if ed.1.isEmpty then ([], c :: t) else (c :: ed.1, ed.2)
      | [] => ([], [c])
    else ([], c :: t)

/-- The optional sign `[+-]?` at the head of `_NUMBER`. -/
def numSplitSign (cs : List Char) : List Char × List Char :=
  match cs with
  | c :: t => if c = '+' ∨ c = '-' then ([c], t) else ([], c :: t)
  | [] => ([], [])

/-- Greedy match of `_NUMBER` at the head: `some (matched, rest)`. -/
def numToken (cs : List Char) : Option (List Char × List Char) :=
  let sn := numSplitSign cs
  let ip := takeW digitC sn.2
  match ip.2 with
  | c :: cs3 =>
    if c = '.' then
      let fp := takeW digitC cs3
      if fp.1.isEmpty then
        if ip.1.isEmpty then none
        else some (sn.1 ++ ip.1, c :: cs3)
      else
        let ex := expTok fp.2
        some (sn.1 ++ ip.1 ++ '.' :: fp.1 ++ ex.1, ex.2)
    else if ip.1.isEmpty then none
    else
      let ex := expTok (c :: cs3)
      some (sn.1 ++ ip.1 ++ ex.1, ex.2)
  | [] =>
    if ip.1.isEmpty then none
    else some (sn.1 ++ ip.1, [])

/-! ## The scalar searches of `parse_aim_output`

`re.search(rf"(?mi)total\s+gibbs[^:=\n]*[:=]\s*({_NUMBER})", txt)` and
`re.search(rf"(?mi)\bph\b[^:=\n]*[:=]\s*({_NUMBER})", txt)`: leftmost
position at which the whole pattern matches, returning group 1.

`[^:=\n]*[:=]` is deterministic: the greedy class run necessarily stops at
the first `:`, `=` or newline, and only `:`/`=` lets `[:=]` succeed (no
shorter run can, since everything before is outside `[:=]`).  `\s*` before
the number is deterministic because a `_NUMBER` match never starts with a
whitespace character. -/

/-- Case-insensitive literal match: `pat` is given lowercase; returns the
rest of the text.  Models `re.IGNORECASE` over ASCII. -/
def matchCI : List Char → List Char → Option (List Char)
  | [], t => some t
  | _ :: _, [] => none
  | p :: ps, c :: t => if c.toLower = p then matchCI ps t else none

/-- `[^:=\n]*[:=]`: skip to the first `:`/`=`/newline; succeed past a
`:`/`=`, fail on newline or end. -/
def scanColonEq : List Char → Option (List Char)
  | [] => none
  | c :: t =>
    if c = ':' ∨ c = '=' then some t
    else if c = '\n' then none
    else scanColonEq t

/-- Common tail `[^:=\n]*[:=]\s*({_NUMBER})` of both scalar patterns:
returns the captured number token. -/
def tailNum (cs : List Char) : Option (List Char) :=
  match scanColonEq cs with
  | none => none
  | some r =>
    let ws := takeW pySpace r
    match numToken ws.2 with
    | some tr => some tr.1
    | none => none

/-- Attempt `total\s+gibbs[^:=\n]*[:=]\s*({_NUMBER})` at this position. -/
def tryGibbs (cs : List Char) : Option (List Char) :=
  match matchCI ['t', 'o', 't', 'a', 'l'] cs with
  | none => none
  | some r1 =>
    let ws := takeW pySpace r1
    if ws.1.isEmpty then none
    else
      match matchCI ['g', 'i', 'b', 'b', 's'] ws.2 with
      | none => none
      | some r2 => tailNum r2

/-- `re.search` for the gibbs pattern: leftmost match, returning group 1. -/
def searchGibbs : List Char → Option (List Char)
  | [] => none
  | c :: t =>
    match tryGibbs (c :: t) with
    | some tok => some tok
    | none => searchGibbs t

/-- Attempt `\bph\b[^:=\n]*[:=]\s*({_NUMBER})` at this position; `prev` is
the character before it (for the left word boundary). -/
def tryPh (prev : Option Char) (cs : List Char) : Option (List Char) :=
  match prev with
  | some c => if pyWord c then none else tryPhCore cs
  | none => tryPhCore cs
where
  tryPhCore : List Char → Option (List Char)
    | c1 :: c2 :: rest =>
      if c1.toLower = 'p' ∧ c2.toLower = 'h' then
        match rest with
        | c3 :: _ => if pyWord c3 then none else tailNum rest
        | [] => tailNum rest
      else none
    | _ => none

/-- `re.search` for the ph pattern: leftmost match, returning group 1. -/
def searchPh (prev : Option Char) : List Char → Option (List Char)
  | [] => none
  | c :: t =>
    match tryPh prev (c :: t) with
    | some tok => some tok
    | none => searchPh (some c) t

/-- `re.match(rf"^([A-Za-z0-9_+\-()\[\]/]+)\s+({_NUMBER})$", line)` on a
(stripped) line: the full line must be name, whitespace, number.  The
classes of the three parts make the split deterministic (see the
backtracking notes on `numToken`). -/
def tabLine (cs : List Char) : Option (List Char × List Char) :=
  let nm := takeW nameC cs
  if nm.1.isEmpty then none
  else
    let ws := takeW pySpace nm.2
    if ws.1.isEmpty then none
    else
      match numToken ws.2 with
      | some tr => if tr.2.isEmpty then some (nm.1, tr.1) else none
      | none => none

/-! ## `parse_aim_output` -/

/-- Scalar result entry: the `try: float(...) except ValueError:` fallback
of the pH branch can store the captured text verbatim. -/
inductive PyVal where
  | num (f : PyFloat)
  | str (s : String)
deriving DecidableEq

/-- The result dictionary of `parse_aim_output`.  The Python value is a
dict with at most the keys `"Total Gibbs Free Energy"`, `"pH"`,
`"molarities"` and `"raw"`; `molarities` is itself an insertion-ordered
dict, present exactly when non-empty, modelled as the (possibly empty)
association list. -/
structure AimResults where
  gibbs : Option PyFloat
  pH : Option PyVal
  molarities : List (String × PyFloat)
  raw : Option String
deriving DecidableEq

/-- Insertion-ordered dict assignment `d[k] = v`: replaces in place or
appends. -/
def dset {α : Type} : List (String × α) → String → α → List (String × α)
  | [], k, v => [(k, v)]
  | (k', v') :: t, k, v =>
    if k' = k then (k', v) :: t else (k', v') :: dset t k v

/-- Dict lookup. -/
def dget? {α : Type} : List (String × α) → String → Option α
  | [], _ => none
  | (k', v') :: t, k => if k' = k then some v' else dget? t k

/-- `d.setdefault k v`. -/
def dsetdefault {α : Type} : List (String × α) → String → α → List (String × α)
  | [], k, v => [(k, v)]
  | (k', v') :: t, k, v =>
    if k' = k then (k', v') :: t else (k', v') :: dsetdefault t k v

/-- One iteration of the molarity loop of `parse_aim_output`: strip the
line, skip it if empty or not a full tabular match, otherwise
`molarities[name] = float(number)` (that `float` call is outside any
`try`, hence the `Except`). -/
def molStep (acc : List (String × PyFloat)) (line : List Char) :
    Except Unit (List (String × PyFloat)) :=
  let l := pyStrip line
  if l.isEmpty then .ok acc
  else
    match tabLine l with
    | none => .ok acc
    | some nv =>
      match pyFloat? nv.2 with
      | some f => .ok (dset acc (String.mk nv.1) f)
      | none => .error ()

/-- The "Total Gibbs Free Energy" extraction (lines 239-241): its
`float()` call is unprotected, so a failing conversion would raise. -/
def gibbsE (txt : List Char) : Except Unit (Option PyFloat) :=
  match searchGibbs txt with
  | none => .ok none
  | some tok =>
    match pyFloat? tok with
    | some f => .ok (some f)
    | none => .error ()

/-- The pH extraction (lines 244-249): `float()` under
`try/except ValueError`, falling back to the captured text. -/
def phOf (txt : List Char) : Option PyVal :=
  match searchPh none txt with
  | none => none
  | some tok =>
    match pyFloat? tok with
    | some f => some (.num f)
    | none => some (.str (String.mk tok))

/-- The molarity loop (lines 252-262), short-circuiting on a raising
`float()` call. -/
def molFoldE : List (List Char) → List (String × PyFloat) →
    Except Unit (List (String × PyFloat))
  | [], acc => .ok acc
  | l :: ls, acc =>
    match molStep acc l with
    | .error e => .error e
    | .ok acc2 => molFoldE ls acc2

/-- `parse_aim_output` (src/project0/aim_client.py, lines 227-271): the
gibbs search (bare `float`), the ph search (`float` inside
`try/except ValueError`), the tabular loop, and the `raw` fallback when
the result dict would be empty. -/
def parse_aim_output (text : String) : Except Unit AimResults :=
  let txt := text.data
  match gibbsE txt with
  | .error e => .error e
  | .ok gibbs =>
    let pH := phOf txt
    match molFoldE (splitLinesPy txt) [] with
    | .error e => .error e
    | .ok mol =>
      if gibbs = none ∧ pH = none ∧ mol = [] then
        .ok ⟨gibbs, pH, mol, some (String.mk (txt.take 2000))⟩
      else .ok ⟨gibbs, pH, mol, none⟩

/-! ## The discovered HTML form

`post_to_aim` fetches the model page with `requests` and walks the first
`<form>` with BeautifulSoup.  The network fetch and the HTML parse are
outside the embedding; the resulting document structure is the input:
`Form` holds the form's elements in document order with the attributes the
code reads, plus the form's `<label>` elements (queried only via
`find("label", attrs={"for": id})`). -/

inductive Tag where
  | input
  | select
  | textarea
  | button
deriving DecidableEq

/-- One `<option>` of a `<select>`: its `value` attribute (if any) and
whether it carries the `selected` attribute. -/
structure SOpt where
  value? : Option String
  selected : Bool
deriving DecidableEq

/-- An element of the form, with the attributes `post_to_aim` reads.
`text` models BeautifulSoup `get_text("\n")` (textarea default value) and
`stripText` models `get_text(strip=True)` (button captions). -/
structure Elem where
  tag : Tag
  name? : Option String := none
  type? : Option String := none
  value? : Option String := none
  checked : Bool := false
  id? : Option String := none
  text : String := ""
  stripText : String := ""
  options : List SOpt := []
deriving DecidableEq

/-- The first form of the page: its elements in document order and its
labels as (`for` attribute, `get_text(" ")` content) pairs. -/
structure Form where
  elems : List Elem
  labels : List (String × String) := []
deriving DecidableEq

/-- `inp.get("name")` followed by the pervasive `if not name: continue`
truthiness check: an absent or empty name is no name. -/
def getName? (e : Elem) : Option String :=
  match e.name? with
  | some n => if n = "" then none else some n
  | none => none

/-- A named text input with a `value` attribute, for concrete example
forms. -/
def textInput (n v : String) : Elem :=
  { tag := Tag.input, name? := some n, value? := some v }

/-- A named, unchecked checkbox input with a `value` attribute. -/
def checkBox (n v : String) : Elem :=
  { tag := Tag.input, name? := some n, type? := some "checkbox", value? := some v }

/-- A named textarea whose body text is `txt`. -/
def textArea (n txt : String) : Elem :=
  { tag := Tag.textarea, name? := some n, text := txt }

/-- The submitted payload: a Python dict from field name to value. -/
abbrev Payload := List (String × String)

/-! ## `build_payload` -/

/-- `build_payload` (lines 25-41): the generic payload used when the page
contains no form.  `tempStr` and `rhStr` stand for the Python decimal
strings `str(temperature_k)` and `str(rh)`; species values are likewise
carried as their `str(v)` strings (the code only ever applies `str` to
the numeric parameters, so the embedding abstracts them as the resulting
strings). -/
def buildStep (acc : Payload) (kv : String × String) : Payload :=
  dset acc (pyStripStr kv.1) kv.2

def build_payload (tempStr rhStr : String) (species : List (String × String)) : Payload :=
  let p : Payload := [("Temperature", tempStr), ("T", tempStr), ("RH", rhStr)]
  let p := species.foldl buildStep p
  dsetdefault p "submit" "Run model"

/-! ## The payload construction of `post_to_aim` (lines 74-207) -/

/-- `sel.get("value")` resolution of a `<select>` (lines 86-94): the first
option marked `selected` if it has a `value`, else the first option's
`value`, else `""`. -/
def selectDefault (e : Elem) : String :=
  match e.options.find? (·.selected) with
  | some o =>
    match o.value? with
    | some v => v
    | none => firstOptValue e
  | none => firstOptValue e
where
  firstOptValue (e : Elem) : String :=
    match e.options.head? with
    | some o => o.value?.getD ""
    | none => ""

/-- `(inp.get("type") or "text").lower()`: an absent or empty `type`
attribute counts as `"text"`. -/
def inputType (e : Elem) : String :=
  (match e.type? with
   | some t => if t = "" then "text" else t
   | none => "text").toLower

/-- Seeding one element (lines 77-105): every named
input/select/textarea contributes its current default; unchecked
checkboxes and radios contribute nothing. -/
def seedElem (p : Payload) (e : Elem) : Payload :=
  match e.tag with
  | .button => p
  | .textarea =>
    match getName? e with
    | some n => dset p n e.text
    | none => p
  | .select =>
    match getName? e with
    | some n => dset p n (selectDefault e)
    | none => p
  | .input =>
    match getName? e with
    | some n =>
      if inputType e = "checkbox" ∨ inputType e = "radio" then
        if e.checked then dset p n (e.value?.getD "on") else p
      else dset p n (e.value?.getD "")
    | none => p

/-- The seeded payload: fold of `seedElem` over the form's
input/select/textarea elements in document order. -/
def seedPayload (form : Form) : Payload :=
  form.elems.foldl seedElem []

/-- `match_name(n, patterns)`: some pattern is a substring of
`n.lower()`. -/
def matchName (n : String) (pats : List String) : Bool :=
  pats.any (fun p => strIn p n.toLower)

/-- The temperature test of line 113:
`match_name(key, ["temp", "temperature", "t_"]) or key.lower() == "t"`. -/
def tempMatch (k : String) : Bool :=
  matchName k ["temp", "temperature", "t_"] ∨ k.toLower = "t"

/-- The humidity test of line 115: `match_name(key, ["rh", "humid",
"relative"])`. -/
def rhMatch (k : String) : Bool :=
  matchName k ["rh", "humid", "relative"]

/-- Lines 112-116: for each key of the seeded payload (snapshot
`list(payload.keys())`), overwrite temperature-like keys with
`str(temperature_k)`, else (elif) humidity-like keys with `str(rh)`. -/
def tempRHStep (tempStr rhStr : String) (acc : Payload) (k : String) : Payload :=
  if tempMatch k then dset acc k tempStr
  else if rhMatch k then dset acc k rhStr
  else acc

/-- Lines 112-116: for each key of the seeded payload (snapshot
`list(payload.keys())`), overwrite temperature-like keys with
`str(temperature_k)`, else (elif) humidity-like keys with `str(rh)`. -/
def stageTempRH (tempStr rhStr : String) (p : Payload) : Payload :=
  (p.map Prod.fst).foldl (tempRHStep tempStr rhStr) p

/-- Lines 120-131: if any key looks water-related, set `water_var` (or
the first `water`-containing key) to `str(rh)` and force
`interactive_type` to `"2"`. -/
def stageWater (rhStr : String) (p : Payload) : Payload :=
  if (p.map Prod.fst).any
      (fun k => k.toLower = "water_var" ∨ strIn "water_var" k.toLower ∨
        strIn "water" k.toLower) then
    let p1 :=
      if (dget? p "water_var").isSome then dset p "water_var" rhStr
      else
        match (p.map Prod.fst).find? (fun k => strIn "water" k.toLower) with
        | some k => dset p k rhStr
        | none => p
    dset p1 "interactive_type" "2"
  else p

/-- `species_lines = "\n".join(f"{k} {v}" for k, v in species.items())`. -/
def speciesLines (species : List (String × String)) : String :=
  String.intercalate "\n" (species.map (fun kv => kv.1 ++ " " ++ kv.2))

/-- Lines 135-141: exact-name species placement.  For each species label,
the first payload key equal to it case-insensitively is overwritten with
the species value; the label is recorded as placed. -/
def speciesExactStep (acc : Payload × List String) (kv : String × String) :
    Payload × List String :=
  match (acc.1.map Prod.fst).find? (fun k => k.toLower = kv.1.toLower) with
  | some k => (dset acc.1 k kv.2, acc.2 ++ [kv.1])
  | none => acc

/-- Lines 135-141: exact-name species placement.  For each species label,
the first payload key equal to it case-insensitively is overwritten with
the species value; the label is recorded as placed. -/
def stageSpeciesExact (species : List (String × String)) (p : Payload) :
    Payload × List String :=
  species.foldl speciesExactStep (p, [])

/-- Lines 144-153: the first named `<textarea>` of the form whose name
contains one of `species`/`conc`/`concentration`/`input`. -/
def findQualTextarea : List Elem → Option String
  | [] => none
  | e :: t =>
    if e.tag = .textarea then
      match getName? e with
      | some n =>
        if matchName n ["species", "conc", "concentration", "input"] then some n
        else findQualTextarea t
      | none => findQualTextarea t
    else findQualTextarea t

/-- Lines 144-153: if nothing was placed and species exist, drop the
joined species block into the first qualifying textarea and mark all
labels placed. -/
def stageTextarea (form : Form) (species : List (String × String))
    (pp : Payload × List String) : Payload × List String :=
  if ¬ (speciesLines species = "") ∧ pp.2 = [] then
    match findQualTextarea form.elems with
    | some n => (dset pp.1 n (speciesLines species), species.map Prod.fst)
    | none => pp
  else pp

/-- Lines 156-161: same fallback on the first payload key whose name
contains `species`/`conc`/`concentration`/`mole`. -/
def stageGeneric (species : List (String × String))
    (pp : Payload × List String) : Payload :=
  if ¬ (speciesLines species = "") ∧ pp.2 = [] then
    match (pp.1.map Prod.fst).find?
        (fun k => matchName k ["species", "conc", "concentration", "mole"]) with
    | some k => dset pp.1 k (speciesLines species)
    | none => pp.1
  else pp.1

/-- Lines 163-169: make sure generic temperature/RH keys exist when no
matching field was found (`setdefault`, so nothing is overwritten). -/
def stageEnsure (tempStr rhStr : String) (p : Payload) : Payload :=
  let p1 :=
    if ¬ (p.map Prod.fst).any tempMatch then
      dsetdefault (dsetdefault p "Temperature" tempStr) "T" tempStr
    else p
  if ¬ (p1.map Prod.fst).any rhMatch then dsetdefault p1 "RH" rhStr
  else p1

/-- The label text resolved for an input (lines 182-188): when the
input has a truthy (non-empty) `id`, the first `<label for=id>`'s
`get_text(" ").lower()`, else `""` (the code's `if iid:` skips an
absent or empty id). -/
def labelTextFor (form : Form) (e : Elem) : String :=
  match e.id? with
  | none => ""
  | some iid =>
    if iid = "" then ""
    else
      match form.labels.find? (fun l => l.1 = iid) with
      | some l => l.2.toLower
      | none => ""

/-- Does some requested solid label occur (lowercased, as substring) in
the input's name, value attribute or label text (lines 189-193)? -/
def solidHit (solids : List String) (lname lval ltext : String) : Bool :=
  solids.any (fun s =>
    strIn s.toLower lname ∨ strIn s.toLower lval ∨ strIn s.toLower ltext)

/-- Is `e` a named checkbox/radio `<input>` whose name/value/label text
matches some requested solid — i.e. does the solids loop assign to it? -/
def solidSets (form : Form) (solids : List String) (e : Elem) : Bool :=
  match e.tag, getName? e with
  | .input, some n =>
    let itype := (e.type?.getD "").toLower
    (itype = "checkbox" ∨ itype = "radio") ∧
      solidHit solids n.toLower (e.value?.getD "on").toLower (labelTextFor form e)
  | _, _ => false

/-- Lines 171-193: when solids were requested, every matching
checkbox/radio input has its payload entry set to its `value` attribute
(default `"on"`).  The per-field inner loop over the solids breaks at the
first matching solid, which only determines that the assignment happens;
the value written is the field's own. -/
def solidStep (form : Form) (solids : List String) (acc : Payload) (e : Elem) :
    Payload :=
  if solidSets form solids e then
    match getName? e with
    | some n => dset acc n (e.value?.getD "on")
    | none => acc
  else acc

/-- Lines 171-193 continued: the traversal of the form's inputs. -/
def stageSolids (form : Form) (solids : List String) (p : Payload) : Payload :=
  if solids.isEmpty then p
  else form.elems.foldl (solidStep form solids) p

/-- `btn.get("value") or btn.get_text(strip=True) or "Run"` (line 201):
Python `or`-chaining on falsy (absent or empty) strings. -/
def submitVal (e : Elem) : String :=
  let v := e.value?.getD ""
  if ¬ v = "" then v
  else if ¬ e.stripText = "" then e.stripText
  else "Run"

/-- Lines 196-205: the first submit-typed input or button element that
has a name, with its submitted value.  An unnamed submit element does not
stop the scan. -/
def findSubmit : List Elem → Option (String × String)
  | [] => none
  | e :: t =>
    if e.tag = .input ∨ e.tag = .button then
      if (e.type?.getD "").toLower = "submit" ∨ e.tag = .button then
        match e.name? with
        | some n => if n = "" then findSubmit t else some (n, submitVal e)
        | none => findSubmit t
      else findSubmit t
    else findSubmit t

/-- Lines 195-207: add the submit control's pair, or
`setdefault("submit", "Run model")` when none was found. -/
def stageSubmit (form : Form) (p : Payload) : Payload :=
  match findSubmit form.elems with
  | some nv => dset p nv.1 nv.2
  | none => dsetdefault p "submit" "Run model"

/-- The payload `post_to_aim` submits when the page has a form
(lines 74-207): seed, temperature/RH, water mode, species placement
(exact, textarea, generic), ensure generics, solids, submit control. -/
def form_payload (form : Form) (tempStr rhStr : String)
    (species : List (String × String)) (solids : List String) : Payload :=
  let p := seedPayload form
  let p := stageTempRH tempStr rhStr p
  let p := stageWater rhStr p
  let pp := stageSpeciesExact species p
  let pp := stageTextarea form species pp
  let p := stageGeneric species pp
  let p := stageEnsure tempStr rhStr p
  let p := stageSolids form solids p
  stageSubmit form p

/-- The payload `post_to_aim` submits: the generic `build_payload` when
the page has no `<form>` (lines 63-68, where `solids` is ignored), else
the mapped form payload. -/
def post_to_aim_payload (form? : Option Form) (tempStr rhStr : String)
    (species : List (String × String)) (solids : List String) : Payload :=
  match form? with
  | none => build_payload tempStr rhStr species
  | some form => form_payload form tempStr rhStr species solids

/-- `run_and_parse` (lines 274-282): submit, extract the text, parse.
The network round-trip and the `<pre>`-text extraction of the returned
HTML are abstracted as the oracle `server : Payload → String` giving the
extracted text of the response to a submitted payload. -/
def run_and_parse (form? : Option Form) (server : Payload → String)
    (tempStr rhStr : String) (species : List (String × String))
    (solids : List String) : Except Unit AimResults :=
  parse_aim_output (server (post_to_aim_payload form? tempStr rhStr species solids))

/-! ## The pure characterization of `parse_aim_output` -/

/-- What the gibbs extraction stores (the raising branch is unreachable). -/
def gibbsOf (txt : List Char) : Option PyFloat :=
  match searchGibbs txt with
  | none => none
  | some tok => pyFloat? tok

/-- One iteration of the molarity loop, with the unreachable raising
branch dropped. -/
def molStepP (acc : List (String × PyFloat)) (line : List Char) :
    List (String × PyFloat) :=
  let l := pyStrip line
  if l.isEmpty then acc
  else
    match tabLine l with
    | none => acc
    | some nv =>
      match pyFloat? nv.2 with
      | some f => dset acc (String.mk nv.1) f
      | none => acc

/-- The molarities table of a parse. -/
def molsOf (txt : List Char) : List (String × PyFloat) :=
  (splitLinesPy txt).foldl molStepP []

/-- The value `parse_aim_output` returns (it always returns one). -/
def parseSpec (text : String) : AimResults :=
  let txt := text.data
  let g := gibbsOf txt
  let p := phOf txt
  let m := molsOf txt
  ⟨g, p, m,
    if g = none ∧ p = none ∧ m = [] then some (String.mk (txt.take 2000))
    else none⟩


/-! ## Claim C9: re-emission of the scalar fields

The claim re-emits the two scalar entries as `"<label> = <value>"` lines,
`value` being "the standard decimal string of each float" (Python `str`).
The embedding takes the value strings abstractly: the roundtrip theorem
asks only that each is a `_NUMBER`-shaped literal denoting the stored
float, which `str` of a *finite* float always is (`str(inf) = "inf"` is
not — the counterexample). -/

/-- The claim's re-emitted text: one line per present scalar, gibbs line
first, separated by a newline. -/
def reEmitScalars (g p : Option (List Char)) : List Char :=
  match g, p with
  | some s1, some s2 =>
    ("Total Gibbs Free Energy = " : String).data ++ s1 ++
      ('\n' :: (("pH = " : String).data ++ s2))
  | some s1, none => ("Total Gibbs Free Energy = " : String).data ++ s1
  | none, some s2 => ("pH = " : String).data ++ s2
  | none, none => []

/-! ## Lemmas: `takeW` -/

theorem takeW_cons_pos {p : Char → Bool} {c : Char} (t : List Char)
    (h : p c = true) :
    takeW p (c :: t) = (c :: (takeW p t).1, (takeW p t).2) := by
  simp [takeW, h]

theorem takeW_cons_neg {p : Char → Bool} {c : Char} (t : List Char)
    (h : p c = false) : takeW p (c :: t) = ([], c :: t) := by
  simp [takeW, h]

/-- `takeW` skips a run known to satisfy `p` wholesale. -/
theorem takeW_append {p : Char → Bool} {a : List Char} (b : List Char)
    (ha : ∀ c ∈ a, p c = true) :
    takeW p (a ++ b) = (a ++ (takeW p b).1, (takeW p b).2) := by
  induction a with
  | nil => simp
  | cons c t ih =>
    have hc : p c = true := ha c (by simp)
    have ht : ∀ c ∈ t, p c = true := fun x hx => ha x (by simp [hx])
    simp [takeW, hc, ih ht]

/-- `takeW` takes nothing from a list whose head fails `p`. -/
theorem takeW_none {p : Char → Bool} {b : List Char}
    (hb : b = [] ∨ ∃ c t, b = c :: t ∧ p c = false) : takeW p b = ([], b) := by
  rcases hb with rfl | ⟨c, t, rfl, hc⟩
  · rfl
  · simp [takeW, hc]

theorem takeW_split {p : Char → Bool} {a : List Char} {b : List Char}
    (ha : ∀ c ∈ a, p c = true)
    (hb : b = [] ∨ ∃ c t, b = c :: t ∧ p c = false) :
    takeW p (a ++ b) = (a, b) := by
  rw [takeW_append b ha, takeW_none hb]; simp

/-- Everything `takeW` takes satisfies `p`. -/
theorem takeW_taken {p : Char → Bool} :
    ∀ l : List Char, ∀ c ∈ (takeW p l).1, p c = true := by
  intro l
  induction l with
  | nil => simp [takeW]
  | cons c t ih =>
    by_cases h : p c = true
    · rw [takeW_cons_pos t h]
      intro x hx
      rcases List.mem_cons.mp hx with rfl | hx
      · exact h
      · exact ih x hx
    · rw [takeW_cons_neg t (by simpa using h)]
      simp

/-- The remainder of `takeW` is empty or starts with a failing character. -/
theorem takeW_rest {p : Char → Bool} :
    ∀ l : List Char,
      (takeW p l).2 = [] ∨ ∃ c t, (takeW p l).2 = c :: t ∧ p c = false := by
  intro l
  induction l with
  | nil => simp [takeW]
  | cons c t ih =>
    by_cases h : p c = true
    · rw [takeW_cons_pos t h]; exact ih
    · rw [takeW_cons_neg t (by simpa using h)]
      exact Or.inr ⟨c, t, rfl, by simpa using h⟩

theorem takeW_decomp {p : Char → Bool} :
    ∀ l : List Char, (takeW p l).1 ++ (takeW p l).2 = l := by
  intro l
  induction l with
  | nil => simp [takeW]
  | cons c t ih =>
    by_cases h : p c = true
    · rw [takeW_cons_pos t h]; simpa using ih
    · rw [takeW_cons_neg t (by simpa using h)]; simp

/-! ## Lemmas: character classes -/

/-- The characters a `_NUMBER` token can contain. -/
def tokChar (c : Char) : Bool :=
  digitC c ∨ c = '+' ∨ c = '-' ∨ c = '.' ∨ c = 'e' ∨ c = 'E'

theorem digit_char_facts {c : Char} (h : digitC c = true) :
    pySpace c = false ∧ tokChar c = true := by
  constructor
  · simp only [digitC, decide_eq_true_eq] at h
    simp only [pySpace, decide_eq_false_iff_not]
    rintro (rfl | rfl | rfl | rfl | rfl | rfl | rfl | rfl | rfl | rfl | rfl |
      rfl | rfl | rfl) <;> revert h <;> decide
  · simp only [tokChar, Bool.decide_or, Bool.or_eq_true, h]
    simp

theorem tok_char_not_space {c : Char} (h : tokChar c = true) :
    pySpace c = false := by
  simp only [tokChar, Bool.decide_or, Bool.or_eq_true, decide_eq_true_eq] at h
  rcases h with h | rfl | rfl | rfl | rfl | rfl
  · exact (digit_char_facts h).1
  all_goals decide

/-- A digit is none of the structural characters of a numeric literal. -/
theorem digit_ne {c : Char} (h : digitC c = true) :
    c ≠ '+' ∧ c ≠ '-' ∧ c ≠ '.' ∧ c ≠ 'e' ∧ c ≠ 'E' := by
  refine ⟨?_, ?_, ?_, ?_, ?_⟩ <;> rintro rfl <;> revert h <;> decide

/-! ## Every `_NUMBER` match is accepted by `float()`

`parse_aim_output` calls `float()` on regex captures; in two of the three
places that call is not protected by a `try`.  The following shape
analysis shows the call always succeeds (`pyFloat?` returns `some`),
which is what makes the parser total. -/

/-- Shape of the exponent part produced by `expTok`. -/
def ExpShape (ex : List Char) : Prop :=
  ex = [] ∨
    ∃ (c : Char) (sg eds : List Char),
      ex = c :: sg ++ eds ∧ (c = 'e' ∨ c = 'E') ∧
      (sg = [] ∨ sg = ['+'] ∨ sg = ['-']) ∧ eds ≠ [] ∧
      ∀ d ∈ eds, digitC d = true

/-- Shape of a `_NUMBER` match: optional sign, digits with an optional
dot-and-fraction (at least one digit overall), optional exponent. -/
def TokParts (tok : List Char) : Prop :=
  ∃ sgn ids fds ex : List Char,
    tok = sgn ++ ids ++ (if fds.isEmpty then [] else '.' :: fds) ++ ex ∧
    (sgn = [] ∨ sgn = ['+'] ∨ sgn = ['-']) ∧
    (∀ c ∈ ids, digitC c = true) ∧ (∀ c ∈ fds, digitC c = true) ∧
    (ids = [] → fds ≠ []) ∧ ExpShape ex

theorem expTok_shape (l : List Char) : ExpShape (expTok l).1 := by
  unfold expTok
  rcases l with _ | ⟨c, t⟩
  · exact Or.inl rfl
  · by_cases hc : c = 'e' ∨ c = 'E'
    · simp only [hc, if_true]
      rcases t with _ | ⟨s, t2⟩
      · exact Or.inl rfl
      · by_cases hs : s = '+' ∨ s = '-'
        · simp only [hs, if_true]
          by_cases he : (takeW digitC t2).1.isEmpty
          · simp only [he, if_true]; exact Or.inl rfl
          · simp only [he, if_false]
            refine Or.inr ⟨c, [s], (takeW digitC t2).1, rfl, hc, ?_, ?_, ?_⟩
            · rcases hs with rfl | rfl
              · exact Or.inr (Or.inl rfl)
              · exact Or.inr (Or.inr rfl)
            · simpa [List.isEmpty_iff] using he
            · exact takeW_taken t2
        · simp only [hs, if_false]
          by_cases he : (takeW digitC (s :: t2)).1.isEmpty
          · simp only [he, if_true]; exact Or.inl rfl
          · simp only [he, if_false]
            refine Or.inr ⟨c, [], (takeW digitC (s :: t2)).1, by simp, hc,
              Or.inl rfl, ?_, ?_⟩
            · simpa [List.isEmpty_iff] using he
            · exact takeW_taken (s :: t2)
    · simp only [hc, if_false]; exact Or.inl rfl

theorem numSplitSign_fst (cs : List Char) :
    (numSplitSign cs).1 = [] ∨ (numSplitSign cs).1 = ['+'] ∨
      (numSplitSign cs).1 = ['-'] := by
  rcases cs with _ | ⟨c, t⟩
  · exact Or.inl rfl
  · unfold numSplitSign
    by_cases hc : c = '+' ∨ c = '-'
    · rcases hc with rfl | rfl <;> simp
    · simp [hc]

/-- Whatever `numToken` matches has the `_NUMBER` shape. -/
theorem numToken_parts {cs tok rest : List Char}
    (h : numToken cs = some (tok, rest)) : TokParts tok := by
  simp only [numToken] at h
  split at h
  next c cs3 heq =>
    split at h
    next hc =>
      split at h
      next hf =>
        split at h
        next hi => exact absurd h (by simp)
        next hi =>
          rw [Option.some_inj, Prod.mk.injEq] at h
          obtain ⟨h3, -⟩ := h
          subst h3
          exact ⟨(numSplitSign cs).1, (takeW digitC (numSplitSign cs).2).1,
            [], [], by simp, numSplitSign_fst cs, takeW_taken _, by simp,
            fun hnil => absurd (by simp [hnil]) hi, Or.inl rfl⟩
      next hf =>
        rw [Option.some_inj, Prod.mk.injEq] at h
        obtain ⟨h3, -⟩ := h
        subst h3
        exact ⟨(numSplitSign cs).1, (takeW digitC (numSplitSign cs).2).1,
          (takeW digitC cs3).1, (expTok (takeW digitC cs3).2).1,
          by rw [if_neg hf], numSplitSign_fst cs, takeW_taken _,
          takeW_taken _, fun _ => by simpa using hf, expTok_shape _⟩
    next hc =>
      split at h
      next hi => exact absurd h (by simp)
      next hi =>
        rw [Option.some_inj, Prod.mk.injEq] at h
        obtain ⟨h3, -⟩ := h
        subst h3
        exact ⟨(numSplitSign cs).1, (takeW digitC (numSplitSign cs).2).1, [],
          (expTok (c :: cs3)).1, by simp, numSplitSign_fst cs, takeW_taken _,
          by simp, fun hnil => absurd (by simp [hnil]) hi, expTok_shape _⟩
  next heq =>
    split at h
    next hi => exact absurd h (by simp)
    next hi =>
      rw [Option.some_inj, Prod.mk.injEq] at h
      obtain ⟨h3, -⟩ := h
      subst h3
      exact ⟨(numSplitSign cs).1, (takeW digitC (numSplitSign cs).2).1, [], [],
        by simp, numSplitSign_fst cs, takeW_taken _, by simp,
        fun hnil => absurd (by simp [hnil]) hi, Or.inl rfl⟩

theorem takeW_all {p : Char → Bool} {l : List Char}
    (h : ∀ c ∈ l, p c = true) : takeW p l = (l, []) := by
  simpa using takeW_split h (Or.inl rfl)

theorem dropWhile_all_false {p : Char → Bool} {l : List Char}
    (h : ∀ c ∈ l, p c = false) : l.dropWhile p = l := by
  cases l with
  | nil => rfl
  | cons c t => simp [List.dropWhile_cons, h c (by simp)]

theorem pyStrip_eq_self {l : List Char} (h : ∀ c ∈ l, pySpace c = false) :
    pyStrip l = l := by
  unfold pyStrip
  rw [dropWhile_all_false h,
    dropWhile_all_false (fun c hc => h c (List.mem_reverse.mp hc))]
  simp

theorem expShape_chars {ex : List Char} (h : ExpShape ex) :
    ∀ c ∈ ex, tokChar c = true := by
  rcases h with rfl | ⟨c, sg, eds, rfl, hc, hsg, -, hdig⟩
  · simp
  · intro x hx
    rcases List.mem_cons.mp hx with rfl | hx
    · rcases hc with rfl | rfl <;> decide
    · rcases List.mem_append.mp hx with hx | hx
      · rcases hsg with rfl | rfl | rfl
        · simp at hx
        · rcases List.mem_singleton.mp hx with rfl; decide
        · rcases List.mem_singleton.mp hx with rfl; decide
      · exact (digit_char_facts (hdig x hx)).2

theorem expShape_head_not_digit {ex : List Char} (h : ExpShape ex) :
    ex = [] ∨ ∃ c t, ex = c :: t ∧ digitC c = false := by
  rcases h with rfl | ⟨c, sg, eds, rfl, hc, -, -, -⟩
  · exact Or.inl rfl
  · refine Or.inr ⟨c, sg ++ eds, rfl, ?_⟩
    rcases hc with rfl | rfl <;> decide

theorem tokParts_chars {tok : List Char} (h : TokParts tok) :
    ∀ c ∈ tok, tokChar c = true := by
  obtain ⟨sgn, ids, fds, ex, rfl, hsgn, hids, hfds, -, hex⟩ := h
  intro x hx
  simp only [List.append_assoc, List.mem_append] at hx
  rcases hx with hx | hx | hx | hx
  · rcases hsgn with rfl | rfl | rfl
    · simp at hx
    · rcases List.mem_singleton.mp hx with rfl; decide
    · rcases List.mem_singleton.mp hx with rfl; decide
  · exact (digit_char_facts (hids x hx)).2
  · rcases hfe : fds.isEmpty with _ | _
    · rw [hfe, if_neg (by simp)] at hx
      rcases List.mem_cons.mp hx with rfl | hx
      · decide
      · exact (digit_char_facts (hfds x hx)).2
    · rw [hfe, if_pos rfl] at hx; simp at hx
  · exact expShape_chars hex x hx

/-- `pySplitSign` is the identity on input not starting with a sign. -/
theorem pySplitSign_id {l : List Char}
    (h : l = [] ∨ ∃ c t, l = c :: t ∧ c ≠ '+' ∧ c ≠ '-') :
    pySplitSign l = (false, l) := by
  rcases h with rfl | ⟨c, t, rfl, h1, h2⟩
  · rfl
  · simp [pySplitSign, h1, h2]

/-- `pyMantissa?` on digits followed by a non-digit (or nothing):
the bare-integer mantissa. -/
theorem pyMantissa_nodot {ids ex : List Char} (hne : ids ≠ [])
    (hids : ∀ c ∈ ids, digitC c = true) (hex : ExpShape ex) :
    pyMantissa? (ids ++ ex) = some (ids, [], ex) := by
  have h1 : takeW digitC (ids ++ ex) = (ids, ex) :=
    takeW_split hids (expShape_head_not_digit hex)
  have hie : ids.isEmpty = false := by simpa using hne
  unfold pyMantissa?
  rw [h1]
  rcases expShape_head_not_digit hex with rfl | ⟨c, t, rfl, -⟩
  · simp [hie]
  · have hcd : ¬ c = '.' := by
      rcases hex with h | ⟨c', sg, eds, heq, hc', -, -, -⟩
      · simp at h
      · obtain ⟨rfl, -⟩ := List.cons.injEq .. ▸ heq
        rcases hc' with rfl | rfl <;> decide
    simp [hcd, hie]

/-- `pyMantissa?` on a dotted mantissa with a non-empty fraction. -/
theorem pyMantissa_dot {ids fds ex : List Char}
    (hids : ∀ c ∈ ids, digitC c = true) (hfds : ∀ c ∈ fds, digitC c = true)
    (hne : fds ≠ []) (hex : ExpShape ex) :
    pyMantissa? (ids ++ ('.' :: (fds ++ ex))) = some (ids, fds, ex) := by
  have h1 : takeW digitC (ids ++ ('.' :: (fds ++ ex))) = (ids, '.' :: (fds ++ ex)) :=
    takeW_split hids (Or.inr ⟨'.', fds ++ ex, rfl, by decide⟩)
  have h2 : takeW digitC (fds ++ ex) = (fds, ex) :=
    takeW_split hfds (expShape_head_not_digit hex)
  have hfe : fds.isEmpty = false := by simpa using hne
  unfold pyMantissa?
  rw [h1]
  simp [h2, hfe]

/-- `pyExpTail` accepts every exponent `expTok` can produce. -/
theorem pyExpTail_shape {ex : List Char} (h : ExpShape ex) :
    ∃ e, pyExpTail ex = some e := by
  rcases h with rfl | ⟨c, sg, eds, rfl, hc, hsg, hne, hdig⟩
  · exact ⟨0, rfl⟩
  · have hall : takeW digitC eds = (eds, []) := takeW_all hdig
    have hee : eds.isEmpty = false := by simpa using hne
    show ∃ e,
        (if c = 'e' ∨ c = 'E' then
          let sn2 := pySplitSign (sg ++ eds)
          let ed := takeW digitC sn2.2
          if ed.1.isEmpty ∨ ¬ ed.2.isEmpty then none
          else some (if sn2.1 then -(valDigits ed.1 : ℤ) else (valDigits ed.1 : ℤ))
        else none) = some e
    rw [if_pos hc]
    rcases hsg with rfl | rfl | rfl
    · have hps : pySplitSign eds = (false, eds) := by
        refine pySplitSign_id ?_
        rcases eds with _ | ⟨d, eds'⟩
        · exact Or.inl rfl
        · exact Or.inr ⟨d, eds', rfl, (digit_ne (hdig d (by simp))).1,
            (digit_ne (hdig d (by simp))).2.1⟩
      simp [hps, hall, hne]
    · have hps : pySplitSign ('+' :: eds) = (false, eds) := by
        simp [pySplitSign]
      simp [hps, hall, hne]
    · have hps : pySplitSign ('-' :: eds) = (true, eds) := by
        simp [pySplitSign]
      simp [hps, hall, hne]

/-- The unprotected `float()` calls of `parse_aim_output` always succeed:
`float` accepts every `_NUMBER` match. -/
theorem numToken_pyFloat {cs tok rest : List Char}
    (h : numToken cs = some (tok, rest)) : ∃ f, pyFloat? tok = some f := by
  have hp := numToken_parts h
  obtain ⟨sgn, ids, fds, ex, rfl, hsgn, hids, hfds, hne, hex⟩ := hp
  have hchars : ∀ c ∈ sgn ++ ids ++ (if fds.isEmpty then [] else '.' :: fds) ++ ex,
      tokChar c = true :=
    tokParts_chars ⟨sgn, ids, fds, ex, rfl, hsgn, hids, hfds, hne, hex⟩
  have hstrip := pyStrip_eq_self (fun c hc => tok_char_not_space (hchars c hc))
  -- the mantissa-with-rest of the literal, after an optional sign
  have hmant : pyMantissa? (ids ++ (if fds.isEmpty then [] else '.' :: fds) ++ ex)
      = some (ids, fds, ex) := by
    rcases hfe : fds.isEmpty with _ | _
    · have hfne : fds ≠ [] := by simpa using hfe
      rw [if_neg (by simp [hfe])]
      rw [show (ids ++ '.' :: fds) ++ ex = ids ++ ('.' :: (fds ++ ex)) by simp]
      exact pyMantissa_dot hids hfds hfne hex
    · have hfnil : fds = [] := by simpa using hfe
      subst hfnil
      rw [if_pos rfl]
      have hine : ids ≠ [] := by
        intro h0
        exact (hne h0) rfl
      simpa using pyMantissa_nodot hine hids hex
  obtain ⟨e, he⟩ := pyExpTail_shape hex
  have hassoc : sgn ++ ids ++ (if fds.isEmpty then [] else '.' :: fds) ++ ex
      = sgn ++ (ids ++ (if fds.isEmpty then [] else '.' :: fds) ++ ex) := by simp
  rcases hsgn with rfl | rfl | rfl
  · have hps : pySplitSign ([] ++ (ids ++ (if fds.isEmpty then [] else '.' :: fds) ++ ex))
        = (false, [] ++ (ids ++ (if fds.isEmpty then [] else '.' :: fds) ++ ex)) := by
      refine pySplitSign_id ?_
      rcases ids with _ | ⟨d, ids'⟩
      · have hfne : fds ≠ [] := hne rfl
        have hfe : fds.isEmpty = false := by simpa using hfne
        rw [if_neg (by simp [hfe])]
        exact Or.inr ⟨'.', fds ++ ex, by simp, by decide, by decide⟩
      · exact Or.inr ⟨d, ids' ++ (if fds.isEmpty then [] else '.' :: fds) ++ ex,
          by simp, (digit_ne (hids d (by simp))).1,
          (digit_ne (hids d (by simp))).2.1⟩
    refine ⟨clampF (ratOf false ids fds e), ?_⟩
    simp only [pyFloat?]
    rw [hstrip, hassoc, hps]
    simp only [List.nil_append, hmant, Option.some_bind, he, Option.map_some']
  · have hps : pySplitSign (['+'] ++ (ids ++ (if fds.isEmpty then [] else '.' :: fds) ++ ex))
        = (false, ids ++ (if fds.isEmpty then [] else '.' :: fds) ++ ex) := by
      simp [pySplitSign]
    refine ⟨clampF (ratOf false ids fds e), ?_⟩
    simp only [pyFloat?]
    rw [hstrip, hassoc, hps]
    simp only [hmant, Option.some_bind, he, Option.map_some']
  · have hps : pySplitSign (['-'] ++ (ids ++ (if fds.isEmpty then [] else '.' :: fds) ++ ex))
        = (true, ids ++ (if fds.isEmpty then [] else '.' :: fds) ++ ex) := by
      simp [pySplitSign]
    refine ⟨clampF (ratOf true ids fds e), ?_⟩
    simp only [pyFloat?]
    rw [hstrip, hassoc, hps]
    simp only [hmant, Option.some_bind, he, Option.map_some']


/-! ## The parser is total: `parse_aim_output` never raises -/

theorem tailNum_token {cs tok : List Char} (h : tailNum cs = some tok) :
    ∃ cs2 rest, numToken cs2 = some (tok, rest) := by
  simp only [tailNum] at h
  split at h
  · exact absurd h (by simp)
  next r heq =>
    split at h
    next tr heq2 =>
      refine ⟨(takeW pySpace r).2, tr.2, ?_⟩
      rw [heq2, ← Option.some_inj.mp h]
    next => exact absurd h (by simp)

theorem tryGibbs_tailNum {cs tok : List Char} (h : tryGibbs cs = some tok) :
    ∃ cs2, tailNum cs2 = some tok := by
  simp only [tryGibbs] at h
  split at h
  · exact absurd h (by simp)
  next r1 heq =>
    split at h
    · exact absurd h (by simp)
    · split at h
      · exact absurd h (by simp)
      next r2 heq2 => exact ⟨r2, h⟩

theorem searchGibbs_token {txt tok : List Char} (h : searchGibbs txt = some tok) :
    ∃ cs2 rest, numToken cs2 = some (tok, rest) := by
  induction txt with
  | nil => exact absurd h (by simp [searchGibbs])
  | cons c t ih =>
    rw [searchGibbs] at h
    split at h
    next tok2 heq =>
      obtain ⟨cs2, h2⟩ := tryGibbs_tailNum heq
      obtain rfl : tok2 = tok := Option.some_inj.mp h
      exact tailNum_token h2
    next => exact ih h

theorem tryPhCore_tailNum {cs tok : List Char}
    (h : tryPh.tryPhCore cs = some tok) : ∃ cs2, tailNum cs2 = some tok := by
  simp only [tryPh.tryPhCore] at h
  split at h
  next c1 c2 rest =>
    split at h
    · split at h
      · split at h
        · exact absurd h (by simp)
        · exact ⟨_, h⟩
      · exact ⟨_, h⟩
    · exact absurd h (by simp)
  next => exact absurd h (by simp)

theorem tryPh_tailNum {prev : Option Char} {cs tok : List Char}
    (h : tryPh prev cs = some tok) : ∃ cs2, tailNum cs2 = some tok := by
  unfold tryPh at h
  split at h
  next c =>
    split at h
    · exact absurd h (by simp)
    · exact tryPhCore_tailNum h
  next => exact tryPhCore_tailNum h

theorem searchPh_token {txt tok : List Char} :
    ∀ {prev : Option Char}, searchPh prev txt = some tok →
      ∃ cs2 rest, numToken cs2 = some (tok, rest) := by
  induction txt with
  | nil => intro prev h; exact absurd h (by simp [searchPh])
  | cons c t ih =>
    intro prev h
    rw [searchPh] at h
    split at h
    next tok2 heq =>
      obtain ⟨cs2, h2⟩ := tryPh_tailNum heq
      obtain rfl : tok2 = tok := Option.some_inj.mp h
      exact tailNum_token h2
    next => exact ih h

theorem tabLine_token {l : List Char} {nv : List Char × List Char}
    (h : tabLine l = some nv) :
    ∃ cs2 rest, numToken cs2 = some (nv.2, rest) := by
  simp only [tabLine] at h
  split at h
  · exact absurd h (by simp)
  · split at h
    · exact absurd h (by simp)
    · split at h
      next tr heq =>
        split at h
        · refine ⟨(takeW pySpace (takeW nameC l).2).2, tr.2, ?_⟩
          rw [heq, ← Option.some_inj.mp h]
        · exact absurd h (by simp)
      next => exact absurd h (by simp)

theorem searchGibbs_pyFloat {txt tok : List Char}
    (h : searchGibbs txt = some tok) : ∃ f, pyFloat? tok = some f := by
  obtain ⟨cs2, rest, h2⟩ := searchGibbs_token h
  exact numToken_pyFloat h2

theorem searchPh_pyFloat {txt tok : List Char}
    (h : searchPh none txt = some tok) : ∃ f, pyFloat? tok = some f := by
  obtain ⟨cs2, rest, h2⟩ := searchPh_token h
  exact numToken_pyFloat h2

theorem tabLine_pyFloat {l : List Char} {nv : List Char × List Char}
    (h : tabLine l = some nv) : ∃ f, pyFloat? nv.2 = some f := by
  obtain ⟨cs2, rest, h2⟩ := tabLine_token h
  exact numToken_pyFloat h2

theorem gibbsE_ok (txt : List Char) : gibbsE txt = .ok (gibbsOf txt) := by
  unfold gibbsE gibbsOf
  split
  · rfl
  next tok heq =>
    obtain ⟨f, hf⟩ := searchGibbs_pyFloat heq
    rw [hf]

theorem molStep_ok (acc : List (String × PyFloat)) (line : List Char) :
    molStep acc line = .ok (molStepP acc line) := by
  simp only [molStep, molStepP]
  split
  · rfl
  · split
    · rfl
    next nv heq =>
      obtain ⟨f, hf⟩ := tabLine_pyFloat heq
      rw [hf]

theorem molFoldE_ok (lines : List (List Char)) :
    ∀ acc, molFoldE lines acc = .ok (lines.foldl molStepP acc) := by
  induction lines with
  | nil => intro acc; rfl
  | cons l ls ih =>
    intro acc
    rw [molFoldE, molStep_ok acc l]
    simpa using ih (molStepP acc l)

/-- `parse_aim_output` is total: it returns exactly `parseSpec`.  (This is
where the two unprotected `float()` calls are shown never to raise.) -/
theorem parse_ok (text : String) : parse_aim_output text = .ok (parseSpec text) := by
  simp only [parse_aim_output, parseSpec]
  rw [gibbsE_ok, molFoldE_ok]
  show (if gibbsOf text.data = none ∧ phOf text.data = none ∧ molsOf text.data = [] then
      (Except.ok ⟨gibbsOf text.data, phOf text.data, molsOf text.data,
        some (String.mk (text.data.take 2000))⟩ : Except Unit AimResults)
    else .ok ⟨gibbsOf text.data, phOf text.data, molsOf text.data, none⟩)
    = .ok ⟨gibbsOf text.data, phOf text.data, molsOf text.data,
        if gibbsOf text.data = none ∧ phOf text.data = none ∧ molsOf text.data = [] then
          some (String.mk (text.data.take 2000)) else none⟩
  split <;> rfl


/-! ## Helper lemmas for the claims -/

deriving instance DecidableEq for Except

theorem gibbsOf_none {txt : List Char} (h : searchGibbs txt = none) :
    gibbsOf txt = none := by
  unfold gibbsOf
  rw [h]

theorem phOf_none {txt : List Char} (h : searchPh none txt = none) :
    phOf txt = none := by
  unfold phOf
  rw [h]

theorem foldl_molStepP_nil {lines : List (List Char)}
    (h : ∀ l ∈ lines, tabLine (pyStrip l) = none) :
    ∀ acc, lines.foldl molStepP acc = acc := by
  induction lines with
  | nil => intro acc; rfl
  | cons l ls ih =>
    intro acc
    rw [List.foldl_cons]
    have hstep : molStepP acc l = acc := by
      simp only [molStepP]
      split
      · rfl
      · rw [h l (by simp)]
    rw [hstep]
    exact ih (fun x hx => h x (by simp [hx])) acc

theorem molsOf_nil {txt : List Char}
    (h : ∀ l ∈ splitLinesPy txt, tabLine (pyStrip l) = none) :
    molsOf txt = [] :=
  foldl_molStepP_nil h []

/-! ## Claims C1, C2, C3, C10 (response parser) -/

/-- C1: `ResponseParser.parse` on the four-line example
`"Total Gibbs Free Energy = -123.456\npH = 4.56\nH+    1.23E-07\nNa+   0.1"`
yields exactly the scalars `-123.456` and `4.56` as floats, the two
tabular lines as the molarities `{"H+": 1.23e-7, "Na+": 0.1}`, and no
`raw` field. -/
theorem C1_parse_example :
    parse_aim_output
        "Total Gibbs Free Energy = -123.456\npH = 4.56\nH+    1.23E-07\nNa+   0.1"
      = .ok ⟨some (.finite (-123.456 : ℚ)), some (.num (.finite (4.56 : ℚ))),
          [("H+", .finite (1.23e-7 : ℚ)), ("Na+", .finite (0.1 : ℚ))], none⟩ := by
  with_unfolding_all rfl

/-- C2: `ResponseParser.parse` is total — on every input it returns a
result rather than raising — and on input with no recognizable scalar
line and no tabular line the result's `raw` field is a prefix of the
input text of length at most 2000 characters. -/
theorem C2_parse_total_and_raw (s : String) :
    (∃ r, parse_aim_output s = .ok r) ∧
    (searchGibbs s.data = none → searchPh none s.data = none →
      (∀ l ∈ splitLinesPy s.data, tabLine (pyStrip l) = none) →
      ∃ r raw, parse_aim_output s = .ok r ∧ r.raw = some raw ∧
        raw.length ≤ 2000 ∧ ∃ t, s = raw ++ t) := by
  constructor
  · exact ⟨parseSpec s, parse_ok s⟩
  · intro hg hp ht
    refine ⟨parseSpec s, String.mk (s.data.take 2000), parse_ok s, ?_, ?_, ?_⟩
    · show (parseSpec s).raw = _
      simp only [parseSpec]
      rw [gibbsOf_none hg, phOf_none hp, molsOf_nil ht]
      simp
    · show (s.data.take 2000).length ≤ 2000
      simp
    · refine ⟨String.mk (s.data.drop 2000), ?_⟩
      show s = String.mk (s.data.take 2000 ++ s.data.drop 2000)
      rw [List.take_append_drop]

/-- C2 witness: on the unstructured string `"hello world"` the parser
returns a result whose `raw` field is the whole (short) input. -/
theorem C2_parse_total_and_raw_witness :
    ∃ r raw, parse_aim_output "hello world" = .ok r ∧ r.raw = some raw ∧
      raw.length ≤ 2000 ∧ ∃ t, "hello world" = raw ++ t :=
  (C2_parse_total_and_raw "hello world").2
    (of_decide_eq_true (by with_unfolding_all rfl))
    (of_decide_eq_true (by with_unfolding_all rfl))
    (of_decide_eq_true (by with_unfolding_all rfl))

/-- C3: for every input, the parse result has `raw` present iff no scalar
entry and no molarities entry is present; `raw` never coexists with a
structured field. -/
theorem C3_raw_iff_empty (s : String) (r : AimResults)
    (h : parse_aim_output s = .ok r) :
    (r.raw ≠ none) ↔ (r.gibbs = none ∧ r.pH = none ∧ r.molarities = []) := by
  rw [parse_ok] at h
  obtain rfl : parseSpec s = r := by
    have := congrArg (fun x => match x with | Except.ok v => v | _ => r) h
    simpa using this
  simp only [parseSpec]
  by_cases hc : gibbsOf s.data = none ∧ phOf s.data = none ∧ molsOf s.data = []
  · simp only [hc, if_pos, and_self]
    simp
  · rw [if_neg hc]
    simpa using hc

/-- C3 witness: instantiated on `"just text"` (raw-only result) via the
returned value of the parser. -/
theorem C3_raw_iff_empty_witness :
    ∃ r, parse_aim_output "just text" = .ok r ∧
      ((r.raw ≠ none) ↔ (r.gibbs = none ∧ r.pH = none ∧ r.molarities = [])) :=
  ⟨parseSpec "just text", parse_ok "just text",
    C3_raw_iff_empty "just text" (parseSpec "just text") (parse_ok "just text")⟩

/-- C10: whenever a parse result has a `"pH"` entry, that entry is a
float; the verbatim-string fallback of the `try/except` is unreachable,
because the captured group always satisfies the numeric pattern and
`float()` accepts every such string. -/
theorem C10_pH_always_float (s : String) (r : AimResults) (v : PyVal)
    (h : parse_aim_output s = .ok r) (hv : r.pH = some v) :
    ∃ f, v = PyVal.num f := by
  rw [parse_ok] at h
  obtain rfl : parseSpec s = r := by
    have := congrArg (fun x => match x with | Except.ok v => v | _ => r) h
    simpa using this
  have hph : (parseSpec s).pH = phOf s.data := rfl
  rw [hph] at hv
  unfold phOf at hv
  split at hv
  · exact absurd hv (by simp)
  next tok heq =>
    obtain ⟨f, hf⟩ := searchPh_pyFloat heq
    rw [hf] at hv
    exact ⟨f, by simpa using hv.symm⟩

/-- C10 witness: on `"pH = 4.5"` the stored pH entry is the float 4.5. -/
theorem C10_pH_always_float_witness :
    ∃ f, PyVal.num (PyFloat.finite (9/2 : ℚ)) = PyVal.num f :=
  C10_pH_always_float "pH = 4.5" (parseSpec "pH = 4.5")
    (PyVal.num (PyFloat.finite (9/2 : ℚ))) (parse_ok "pH = 4.5")
    (of_decide_eq_true (by with_unfolding_all rfl))


/-! ## Payload dictionary lemmas -/

theorem dget_dset {α : Type} (p : List (String × α)) (k j : String) (v : α) :
    dget? (dset p k v) j = if j = k then some v else dget? p j := by
  induction p with
  | nil =>
    by_cases hj : k = j
    · subst hj; simp [dset, dget?]
    · simp [dset, dget?, hj, Ne.symm hj]
  | cons kv t ih =>
    obtain ⟨k2, v2⟩ := kv
    by_cases hk : k2 = k
    · subst hk
      by_cases hj : k2 = j
      · subst hj; simp [dset, dget?]
      · simp [dset, dget?, hj, Ne.symm hj]
    · by_cases hj : k2 = j
      · subst hj
        simp [dset, dget?, hk, Ne.symm hk]
      · simp [dset, dget?, hk, hj, Ne.symm hj, ih]

theorem dget_dset_self {α : Type} (p : List (String × α)) (k : String) (v : α) :
    dget? (dset p k v) k = some v := by
  rw [dget_dset, if_pos rfl]

theorem dget_dset_ne {α : Type} (p : List (String × α)) {k j : String} (v : α)
    (h : j ≠ k) : dget? (dset p k v) j = dget? p j := by
  rw [dget_dset, if_neg h]

theorem dget_dsetdefault_keeps {α : Type} {p : List (String × α)} {j : String}
    {w : α} (h : dget? p j = some w) (k : String) (v : α) :
    dget? (dsetdefault p k v) j = some w := by
  induction p with
  | nil => simp [dget?] at h
  | cons kv t ih =>
    obtain ⟨k2, v2⟩ := kv
    by_cases hk : k2 = k
    · subst hk
      simpa [dsetdefault] using h
    · by_cases hj : k2 = j
      · subst hj
        simp [dget?] at h
        simp [dsetdefault, hk, dget?, h]
      · simp [dget?, hj] at h
        simp [dsetdefault, hk, dget?, hj, ih h]

theorem dget_dsetdefault_ne {α : Type} (p : List (String × α)) {k j : String}
    (v : α) (h : j ≠ k) : dget? (dsetdefault p k v) j = dget? p j := by
  induction p with
  | nil => simp [dsetdefault, dget?, h, Ne.symm h]
  | cons kv t ih =>
    obtain ⟨k2, v2⟩ := kv
    by_cases hk : k2 = k
    · subst hk
      simp [dsetdefault, dget?, Ne.symm h]
    · by_cases hj : k2 = j
      · subst hj
        simp [dsetdefault, hk, dget?]
      · simp [dsetdefault, hk, dget?, hj, ih]

/-- Keys are exactly the lookups that succeed (first occurrence wins). -/
theorem mem_keys_iff_dget {α : Type} (p : List (String × α)) (j : String) :
    j ∈ p.map Prod.fst ↔ (dget? p j).isSome := by
  induction p with
  | nil => simp [dget?]
  | cons kv t ih =>
    obtain ⟨k2, v2⟩ := kv
    by_cases hj : k2 = j
    · subst hj
      simp [dget?]
    · simp [dget?, hj, Ne.symm hj, ih]

theorem keys_dset_mem {α : Type} (p : List (String × α)) (k : String) (v : α)
    (h : k ∈ p.map Prod.fst) :
    (dset p k v).map Prod.fst = p.map Prod.fst := by
  induction p with
  | nil => simp at h
  | cons kv t ih =>
    obtain ⟨k2, v2⟩ := kv
    by_cases hk : k2 = k
    · subst hk
      simp [dset]
    · simp only [List.map_cons, List.mem_cons] at h
      rcases h with h | h
    
      · exact absurd h.symm hk
      · simp [dset, hk, ih h]


/-! ## Stage lemmas for the field mapper -/

/-- Effect of the temperature/RH loop (lines 112-116) on a single key:
keys of the snapshot matching the temperature test get `tempStr`, keys
matching only the humidity test get `rhStr`, all else is untouched. -/
theorem foldTempRH_get (tS rS : String) (ks : List String) :
    ∀ (acc : Payload) (n : String),
      dget? (ks.foldl (tempRHStep tS rS) acc) n =
        if n ∈ ks ∧ (tempMatch n = true ∨ rhMatch n = true) then
          (if tempMatch n = true then some tS else some rS)
        else dget? acc n := by
  induction ks with
  | nil => intro acc n; simp
  | cons k ks ih =>
    intro acc n
    rw [List.foldl_cons, ih]
    by_cases hkn : k = n
    · subst hkn
      by_cases ht : tempMatch k = true
      · by_cases hin : k ∈ ks
        · simp [tempRHStep, ht, hin]
        · simp [tempRHStep, ht, hin, dget_dset_self]
      · by_cases hr : rhMatch k = true
        · by_cases hin : k ∈ ks
          · simp [tempRHStep, ht, hr, hin]
          · simp [tempRHStep, ht, hr, hin, dget_dset_self]
        · simp [tempRHStep, ht, hr]
    · have hnk : ¬ n = k := fun h => hkn h.symm
      by_cases ht : tempMatch k = true
      · simp [tempRHStep, ht, hnk, dget_dset_ne _ _ hnk]
      · by_cases hr : rhMatch k = true
        · simp [tempRHStep, ht, hr, hnk, dget_dset_ne _ _ hnk]
        · simp [tempRHStep, ht, hr, hnk]

theorem stageTempRH_get (tS rS : String) (p : Payload) (n : String) :
    dget? (stageTempRH tS rS p) n =
      if n ∈ p.map Prod.fst ∧ (tempMatch n = true ∨ rhMatch n = true) then
        (if tempMatch n = true then some tS else some rS)
      else dget? p n := by
  unfold stageTempRH
  exact foldTempRH_get tS rS (p.map Prod.fst) p n

/-- The water rule (lines 120-131) preserves a key that already holds
`rhStr` (it only ever writes `rhStr` to water-like keys) provided the key
is not `interactive_type`. -/
theorem stageWater_keeps_rh {rS : String} {p : Payload} {n : String}
    (h : dget? p n = some rS) (hn : n ≠ "interactive_type") :
    dget? (stageWater rS p) n = some rS := by
  unfold stageWater
  split
  · by_cases hw : (dget? p "water_var").isSome = true
    · rw [if_pos hw]
      rw [dget_dset_ne _ "2" hn]
      by_cases hwn : n = "water_var"
      · subst hwn; exact dget_dset_self _ _ _
      · rw [dget_dset_ne _ _ hwn]; exact h
    · rw [if_neg hw]
      split
      next k hk =>
        rw [dget_dset_ne _ "2" hn]
        by_cases hkn : n = k
        · subst hkn; exact dget_dset_self _ _ _
        · rw [dget_dset_ne _ _ hkn]; exact h
      next => rw [dget_dset_ne _ "2" hn]; exact h
  · exact h

/-- The water rule writes only to a `water`-containing key and to
`interactive_type`. -/
theorem stageWater_frame {rS : String} {p : Payload} {n : String}
    (hw : strIn "water" n.toLower = false) (hn : n ≠ "interactive_type") :
    dget? (stageWater rS p) n = dget? p n := by
  unfold stageWater
  split
  · by_cases hv : (dget? p "water_var").isSome = true
    · rw [if_pos hv, dget_dset_ne _ "2" hn]
      have hnw : n ≠ "water_var" := by
        intro h0
        subst h0
        have h2 : strIn "water" ("water_var" : String).toLower = true := by
          with_unfolding_all rfl
        rw [h2] at hw
        exact absurd hw (by simp)
      rw [dget_dset_ne _ _ hnw]
    · rw [if_neg hv]
      split
      next k hk =>
        rw [dget_dset_ne _ "2" hn]
        have hkn : n ≠ k := by
          intro h0
          subst h0
          have h2 := List.find?_some hk
          simp only [decide_eq_true_eq] at h2
          rw [h2] at hw
          exact absurd hw (by simp)
        rw [dget_dset_ne _ _ hkn]
      next => rw [dget_dset_ne _ "2" hn]
  · rfl

/-- The water rule on a payload that has the exact key `water_var`:
that key gets `rhStr` and `interactive_type` is forced to `"2"`. -/
theorem stageWater_water_var {rS : String} {p : Payload}
    (h : (dget? p "water_var").isSome = true) :
    dget? (stageWater rS p) "water_var" = some rS ∧
      dget? (stageWater rS p) "interactive_type" = some "2" := by
  unfold stageWater
  have hcond : ((p.map Prod.fst).any (fun k => k.toLower = "water_var" ∨
      strIn "water_var" k.toLower ∨ strIn "water" k.toLower)) = true := by
    obtain ⟨v, hv⟩ := Option.isSome_iff_exists.mp h
    have hmem : "water_var" ∈ p.map Prod.fst :=
      (mem_keys_iff_dget p "water_var").mpr (by simp [hv])
    refine List.any_eq_true.mpr ⟨"water_var", hmem, ?_⟩
    refine decide_eq_true (Or.inl ?_)
    with_unfolding_all rfl
  rw [if_pos hcond, if_pos h]
  constructor
  · rw [dget_dset_ne _ _ (by decide : ("water_var" : String) ≠ "interactive_type")]
    exact dget_dset_self _ _ _
  · exact dget_dset_self _ _ _


/-- The exact-match species stage leaves keys alone whose lowercased name
equals no species label. -/
theorem stageSpeciesExact_frame {species : List (String × String)} {p : Payload}
    {n : String} (h : ∀ kv ∈ species, ¬ n.toLower = kv.1.toLower) :
    dget? (stageSpeciesExact species p).1 n = dget? p n := by
  unfold stageSpeciesExact
  suffices hgen : ∀ (sp : List (String × String)) (acc : Payload × List String),
      (∀ kv ∈ sp, ¬ n.toLower = kv.1.toLower) →
      dget? (sp.foldl speciesExactStep acc).1 n = dget? acc.1 n by
    exact hgen species (p, []) h
  intro sp
  induction sp with
  | nil => intro acc h2; rfl
  | cons kv sp ih =>
    intro acc h2
    rw [List.foldl_cons]
    have hstep : dget? (speciesExactStep acc kv).1 n = dget? acc.1 n := by
      unfold speciesExactStep
      split
      next k hk =>
        have h3 := List.find?_some hk
        simp only [decide_eq_true_eq] at h3
        have hnk : n ≠ k := by
          intro h0
          subst h0
          exact h2 kv (by simp) h3
        exact dget_dset_ne _ _ hnk
      next => rfl
    rw [ih _ (fun kv2 hkv2 => h2 kv2 (by simp [hkv2])), hstep]

/-- When no seeded key matches any species label case-insensitively, the
exact-match stage places nothing at all. -/
theorem stageSpeciesExact_skip {species : List (String × String)} {p : Payload}
    (h : ∀ kv ∈ species, ∀ k ∈ p.map Prod.fst, ¬ k.toLower = kv.1.toLower) :
    stageSpeciesExact species p = (p, []) := by
  unfold stageSpeciesExact
  suffices hgen : ∀ (sp : List (String × String)),
      (∀ kv ∈ sp, ∀ k ∈ p.map Prod.fst, ¬ k.toLower = kv.1.toLower) →
      ∀ pl, sp.foldl speciesExactStep (p, pl) = (p, pl) by
    exact hgen species h []
  intro sp
  induction sp with
  | nil => intro h2 pl; rfl
  | cons kv sp ih =>
    intro h2 pl
    rw [List.foldl_cons]
    have hstep : speciesExactStep (p, pl) kv = (p, pl) := by
      unfold speciesExactStep
      split
      next k hk =>
        have h3 := List.find?_some hk
        have h4 := List.mem_of_find?_eq_some hk
        simp only [decide_eq_true_eq] at h3
        exact absurd h3 (h2 kv (by simp) k h4)
      next => rfl
    rw [hstep]
    exact ih (fun kv2 hkv2 => h2 kv2 (by simp [hkv2])) pl

/-- The textarea the fallback stage writes to qualifies by name. -/
theorem findQualTextarea_qual :
    ∀ {elems : List Elem} {m : String}, findQualTextarea elems = some m →
      matchName m ["species", "conc", "concentration", "input"] = true := by
  intro elems
  induction elems with
  | nil => intro m h; exact absurd h (by simp [findQualTextarea])
  | cons e t ih =>
    intro m h
    rw [findQualTextarea] at h
    split at h
    · split at h
      · split at h
        · exact (Option.some_inj.mp h) ▸ (by assumption)
        · exact ih h
      · exact ih h
    · exact ih h

/-- The textarea stage does not touch keys that do not qualify. -/
theorem stageTextarea_frame {form : Form} {species : List (String × String)}
    {pp : Payload × List String} {n : String}
    (h : matchName n ["species", "conc", "concentration", "input"] = false) :
    dget? (stageTextarea form species pp).1 n = dget? pp.1 n := by
  unfold stageTextarea
  split
  · split
    next m hm =>
      have hq := findQualTextarea_qual hm
      have hnm : n ≠ m := by
        intro h0
        subst h0
        rw [hq] at h
        exact absurd h (by simp)
      exact dget_dset_ne _ _ hnm
    next => rfl
  · rfl

/-- The textarea fallback stage, firing: nothing placed, species present,
and a qualifying textarea found. -/
theorem stageTextarea_sets {form : Form} {species : List (String × String)}
    {p : Payload} {m : String}
    (hl : ¬ speciesLines species = "")
    (hfind : findQualTextarea form.elems = some m) :
    stageTextarea form species (p, []) =
      (dset p m (speciesLines species), species.map Prod.fst) := by
  unfold stageTextarea
  rw [if_pos ⟨hl, rfl⟩, hfind]

/-- The generic fallback stage does not touch keys that do not qualify. -/
theorem stageGeneric_frame {species : List (String × String)}
    {pp : Payload × List String} {n : String}
    (h : matchName n ["species", "conc", "concentration", "mole"] = false) :
    dget? (stageGeneric species pp) n = dget? pp.1 n := by
  unfold stageGeneric
  split
  · split
    next k hk =>
      have h2 := List.find?_some hk
      simp only [decide_eq_true_eq] at h2
      have hnk : n ≠ k := by
        intro h0
        subst h0
        rw [h2] at h
        exact absurd h (by simp)
      exact dget_dset_ne _ _ hnk
    next => rfl
  · rfl

/-- The ensure stage only `setdefault`s, so present values survive. -/
theorem stageEnsure_keeps {tS rS : String} {p : Payload} {n v : String}
    (h : dget? p n = some v) : dget? (stageEnsure tS rS p) n = some v := by
  simp only [stageEnsure]
  split <;> split <;>
    first
      | exact dget_dsetdefault_keeps
          (dget_dsetdefault_keeps (dget_dsetdefault_keeps h "Temperature" tS) "T" tS) "RH" rS
      | exact dget_dsetdefault_keeps (dget_dsetdefault_keeps h "Temperature" tS) "T" tS
      | exact dget_dsetdefault_keeps h "RH" rS
      | exact h

/-- The solids stage does not touch keys owned by no matched
checkbox/radio input. -/
theorem stageSolids_fold_frame {form : Form} {solids : List String} {n : String} :
    ∀ (es : List Elem) (q : Payload),
      (∀ e ∈ es, solidSets form solids e = true → getName? e ≠ some n) →
      dget? (es.foldl (solidStep form solids) q) n = dget? q n := by
  intro es
  induction es with
  | nil => intro q h; rfl
  | cons e t ih =>
    intro q h
    rw [List.foldl_cons]
    have hstep : dget? (solidStep form solids q e) n = dget? q n := by
      unfold solidStep
      split
      · split
        next m hm =>
          have hnm : n ≠ m := by
            intro h0
            subst h0
            exact absurd hm (h e (by simp) (by assumption))
          exact dget_dset_ne _ _ hnm
        next => rfl
      · rfl
    rw [ih _ (fun e2 he2 => h e2 (by simp [he2])), hstep]

theorem stageSolids_frame {form : Form} {solids : List String} {p : Payload}
    {n : String}
    (h : ∀ e ∈ form.elems, solidSets form solids e = true → getName? e ≠ some n) :
    dget? (stageSolids form solids p) n = dget? p n := by
  unfold stageSolids
  split
  · rfl
  · exact stageSolids_fold_frame form.elems p h

/-- The solids stage sets the entry of a matched checkbox/radio input to
its declared value (`"on"` when absent); when all matched inputs sharing
the name agree on that value, the final entry is exactly it. -/
theorem stageSolids_sets {form : Form} {solids : List String} {p : Payload}
    {e : Elem} {n : String}
    (hs : ¬ solids.isEmpty = true)
    (he : e ∈ form.elems) (hset : solidSets form solids e = true)
    (hn : getName? e = some n)
    (huniq : ∀ e2 ∈ form.elems, solidSets form solids e2 = true →
      getName? e2 = some n → e2.value?.getD "on" = e.value?.getD "on") :
    dget? (stageSolids form solids p) n = some (e.value?.getD "on") := by
  unfold stageSolids
  rw [if_neg hs]
  suffices hgen : ∀ (es : List Elem) (q : Payload),
      (∃ e2 ∈ es, solidSets form solids e2 = true ∧ getName? e2 = some n) →
      (∀ e2 ∈ es, solidSets form solids e2 = true → getName? e2 = some n →
        e2.value?.getD "on" = e.value?.getD "on") →
      dget? (es.foldl (solidStep form solids) q) n = some (e.value?.getD "on") by
    exact hgen form.elems p ⟨e, he, hset, hn⟩ huniq
  intro es
  induction es with
  | nil => intro q hex _; simp at hex
  | cons e2 t ih =>
    intro q hex huq
    rw [List.foldl_cons]
    by_cases hrest : ∃ e3 ∈ t, solidSets form solids e3 = true ∧ getName? e3 = some n
    · exact ih _ hrest (fun e3 h3 => huq e3 (by simp [h3]))
    · -- the head must be the writer, and nothing later touches `n`
      rcases hex with ⟨e4, he4, hset4, hn4⟩
      rcases List.mem_cons.mp he4 with rfl | he4t
      · have hval := huq e4 (by simp) hset4 hn4
        have hq2 : dget? (solidStep form solids q e4) n = some (e.value?.getD "on") := by
          unfold solidStep
          rw [if_pos hset4, hn4, dget_dset_self, hval]
        rw [stageSolids_fold_frame t _
          (fun e3 he3 h3 hn3 => hrest ⟨e3, he3, h3, hn3⟩), hq2]
      · exact absurd ⟨e4, he4t, hset4, hn4⟩ hrest

/-- The submit stage preserves every key other than the chosen submit
control's name. -/
theorem stageSubmit_keeps {form : Form} {p : Payload} {n v : String}
    (h : dget? p n = some v)
    (hsub : ∀ nv, findSubmit form.elems = some nv → nv.1 ≠ n) :
    dget? (stageSubmit form p) n = some v := by
  unfold stageSubmit
  split
  next nv hnv =>
    have := hsub nv hnv
    rw [dget_dset_ne _ _ (fun h0 => this h0.symm)]
    exact h
  next => exact dget_dsetdefault_keeps h "submit" "Run model"


/-! ## Key-set lemmas -/

theorem dget_dsetdefault_none {α : Type} {p : List (String × α)} {k : String}
    (v : α) (h : dget? p k = none) : dget? (dsetdefault p k v) k = some v := by
  induction p with
  | nil => simp [dsetdefault, dget?]
  | cons kv t ih =>
    obtain ⟨k2, v2⟩ := kv
    by_cases hk : k2 = k
    · subst hk
      simp [dget?] at h
    · simp only [dget?, hk, if_false] at h
      simp [dsetdefault, hk, dget?, ih h]

theorem mem_keys_dset {α : Type} {p : List (String × α)} {k j : String} {v : α}
    (h : j ∈ (dset p k v).map Prod.fst) : j ∈ p.map Prod.fst ∨ j = k := by
  induction p with
  | nil =>
    simp only [dset, List.map_cons, List.map_nil, List.mem_singleton] at h
    exact Or.inr h
  | cons kv t ih =>
    obtain ⟨k2, v2⟩ := kv
    by_cases hk : k2 = k
    · subst hk
      simp only [dset, if_pos rfl, if_true, List.map_cons, List.mem_cons] at h
      rcases h with h | h
      · exact Or.inr h
      · exact Or.inl (List.mem_cons.mpr (Or.inr h))
    · simp only [dset, if_neg hk, List.map_cons, List.mem_cons] at h
      rcases h with h | h
      · exact Or.inl (List.mem_cons.mpr (Or.inl h))
      · rcases ih h with h2 | h2
        · exact Or.inl (List.mem_cons.mpr (Or.inr h2))
        · exact Or.inr h2

theorem mem_keys_seed {form : Form} {j : String}
    (h : j ∈ (seedPayload form).map Prod.fst) :
    ∃ e ∈ form.elems, getName? e = some j := by
  unfold seedPayload at h
  suffices hgen : ∀ (es : List Elem) (q : Payload),
      j ∈ (es.foldl seedElem q).map Prod.fst →
      j ∈ q.map Prod.fst ∨ ∃ e ∈ es, getName? e = some j by
    rcases hgen form.elems [] h with h2 | h2
    · simp at h2
    · exact h2
  intro es
  induction es with
  | nil => intro q hq; exact Or.inl hq
  | cons e t ih =>
    intro q hq
    rcases ih (seedElem q e) hq with h2 | h2
    · -- membership in the seeded-one-step payload
      have hstep : j ∈ q.map Prod.fst ∨ getName? e = some j := by
        unfold seedElem at h2
        split at h2
        · exact Or.inl h2
        · split at h2
          next n hn =>
            rcases mem_keys_dset h2 with h3 | rfl
            · exact Or.inl h3
            · exact Or.inr hn
          next => exact Or.inl h2
        · split at h2
          next n hn =>
            rcases mem_keys_dset h2 with h3 | rfl
            · exact Or.inl h3
            · exact Or.inr hn
          next => exact Or.inl h2
        · split at h2
          next n hn =>
            split at h2
            · split at h2
              · rcases mem_keys_dset h2 with h3 | rfl
                · exact Or.inl h3
                · exact Or.inr hn
              · exact Or.inl h2
            · rcases mem_keys_dset h2 with h3 | rfl
              · exact Or.inl h3
              · exact Or.inr hn
          next => exact Or.inl h2
      rcases hstep with h3 | h3
      · exact Or.inl h3
      · exact Or.inr ⟨e, by simp, h3⟩
    · obtain ⟨e2, he2, hn2⟩ := h2
      exact Or.inr ⟨e2, by simp [he2], hn2⟩

theorem keys_foldTempRH (tS rS : String) (ks : List String) :
    ∀ acc : Payload, (∀ k ∈ ks, k ∈ acc.map Prod.fst) →
      (ks.foldl (tempRHStep tS rS) acc).map Prod.fst = acc.map Prod.fst := by
  induction ks with
  | nil => intro acc _; rfl
  | cons k ks ih =>
    intro acc h
    rw [List.foldl_cons]
    have hk : k ∈ acc.map Prod.fst := h k (by simp)
    have hkeys : (tempRHStep tS rS acc k).map Prod.fst = acc.map Prod.fst := by
      unfold tempRHStep
      split
      · exact keys_dset_mem acc k tS hk
      · split
        · exact keys_dset_mem acc k rS hk
        · rfl
    rw [ih _ (fun k2 hk2 => by rw [hkeys]; exact h k2 (by simp [hk2])), hkeys]

theorem keys_stageTempRH (tS rS : String) (p : Payload) :
    (stageTempRH tS rS p).map Prod.fst = p.map Prod.fst := by
  unfold stageTempRH
  exact keys_foldTempRH tS rS (p.map Prod.fst) p (fun k hk => hk)

theorem mem_keys_stageWater {rS : String} {p : Payload} {j : String}
    (h : j ∈ (stageWater rS p).map Prod.fst) :
    j ∈ p.map Prod.fst ∨ j = "interactive_type" := by
  unfold stageWater at h
  split at h
  · by_cases hv : (dget? p "water_var").isSome = true
    · rw [if_pos hv] at h
      rcases mem_keys_dset h with h2 | rfl
      · rcases mem_keys_dset h2 with h3 | rfl
        · exact Or.inl h3
        · exact Or.inl ((mem_keys_iff_dget p "water_var").mpr hv)
      · exact Or.inr rfl
    · rw [if_neg hv] at h
      rcases mem_keys_dset h with h2 | rfl
      · split at h2
        next k hk =>
          rcases mem_keys_dset h2 with h3 | rfl
          · exact Or.inl h3
          · exact Or.inl (List.mem_of_find?_eq_some hk)
        next => exact Or.inl h2
      · exact Or.inr rfl
  · exact Or.inl h

theorem build_fold_frame {species : List (String × String)} {j : String} :
    ∀ {base : Payload}, (∀ kv ∈ species, (pyStripStr kv.1) ≠ j) →
      dget? (species.foldl buildStep base) j = dget? base j := by
  induction species with
  | nil => intro base _; rfl
  | cons kv t ih =>
    intro base h
    rw [List.foldl_cons]
    rw [ih (fun kv2 hkv2 => h kv2 (by simp [hkv2]))]
    unfold buildStep
    exact dget_dset_ne _ _ (fun h0 => h kv (by simp) h0.symm)

theorem build_fold_get {species : List (String × String)} {kv : String × String} :
    ∀ {base : Payload}, kv ∈ species →
      ((species.map (fun kv2 => (pyStripStr kv2.1))).Nodup) →
      dget? (species.foldl buildStep base) (pyStripStr kv.1) = some kv.2 := by
  induction species with
  | nil => intro base h _; simp at h
  | cons kv2 t ih =>
    intro base hmem hnod
    rw [List.foldl_cons]
    simp only [List.map_cons, List.nodup_cons] at hnod
    rcases List.mem_cons.mp hmem with rfl | hmem2
    · -- written by the head, untouched afterwards
      have hframe : ∀ kv3 ∈ t, (pyStripStr kv3.1) ≠ (pyStripStr kv.1) := by
        intro kv3 h3 h0
        exact hnod.1 (by rw [← h0]; exact List.mem_map.mpr ⟨kv3, h3, rfl⟩)
      rw [build_fold_frame hframe]
      unfold buildStep
      exact dget_dset_self _ _ _
    · exact ih hmem2 hnod.2


/-! ## Claims C4-C8 (field mapper) -/

/-- C4 counterexample: the claim says every field whose lowercased name
contains `rh`/`humid`/`relative` ends up with `str(rh)` with no
restriction on what else the name contains, e.g. a name also containing
`temp`.  But the temperature branch of the `elif` chain has priority: the
field `temp_rh` (seeded empty, temperature 298.0, RH 0.5) ends up with
`"298.0"`, not `"0.5"`. -/
theorem C4_counterexample :
    rhMatch "temp_rh" = true ∧
    dget? (form_payload ⟨[textInput "temp_rh" ""], []⟩ "298.0" "0.5" [] [])
        "temp_rh" = some "298.0" ∧
    ¬ ("298.0" : String) = "0.5" := by
  refine ⟨by with_unfolding_all rfl, by with_unfolding_all rfl, ?_⟩
  intro h
  exact absurd (congrArg String.length h) (by decide)

/-- C4 (amended): after the mapper runs, every seeded field whose
lowercased name contains `rh`, `humid` or `relative` — and which is *not*
captured by the temperature rule (name containing `temp`, `temperature`
or `t_`, or equal to `t` case-insensitively), is not case-insensitively
equal to a species label, does not contain any of the species-fallback
substrings (`species`, `conc`, `concentration`, `input`, `mole`), is not
a checkbox/radio input matched by a requested solid, and is not the
form's chosen submit control — holds the decimal string of
relativeHumidity. -/
theorem C4_rh_overwrite (form : Form) (tS rS : String)
    (species : List (String × String)) (solids : List String) (n : String)
    (hseed : (dget? (seedPayload form) n).isSome = true)
    (hrh : rhMatch n = true) (htemp : tempMatch n = false)
    (hsp : ∀ kv ∈ species, ¬ n.toLower = kv.1.toLower)
    (hq1 : matchName n ["species", "conc", "concentration", "input"] = false)
    (hq2 : matchName n ["species", "conc", "concentration", "mole"] = false)
    (hsol : ∀ e ∈ form.elems, solidSets form solids e = true → getName? e ≠ some n)
    (hsub : ∀ nv, findSubmit form.elems = some nv → nv.1 ≠ n) :
    dget? (form_payload form tS rS species solids) n = some rS := by
  have h1 : dget? (stageTempRH tS rS (seedPayload form)) n = some rS := by
    rw [stageTempRH_get,
      if_pos ⟨(mem_keys_iff_dget _ n).mpr hseed, Or.inr hrh⟩,
      if_neg (by simp [htemp])]
  have hit : n ≠ "interactive_type" := by
    intro h0
    subst h0
    rw [show rhMatch "interactive_type" = false from by with_unfolding_all rfl]
      at hrh
    exact absurd hrh (by simp)
  simp only [form_payload]
  refine stageSubmit_keeps ?_ hsub
  rw [stageSolids_frame hsol]
  refine stageEnsure_keeps ?_
  rw [stageGeneric_frame hq2, stageTextarea_frame hq1,
    stageSpeciesExact_frame hsp]
  exact stageWater_keeps_rh h1 hit

/-- C4 witness: a text field `RH_percent` (no temperature-pattern
overlap) receives `"0.5"`. -/
theorem C4_rh_overwrite_witness :
    dget? (form_payload ⟨[textInput "RH_percent" ""], []⟩ "298.0" "0.5" [] [])
      "RH_percent" = some "0.5" := by
  refine C4_rh_overwrite _ "298.0" "0.5" [] [] "RH_percent"
    (by with_unfolding_all rfl) (by with_unfolding_all rfl)
    (by with_unfolding_all rfl) (by simp) (by with_unfolding_all rfl)
    (by with_unfolding_all rfl) ?_ ?_
  · intro e he hsets
    have : solidSets ⟨[textInput "RH_percent" ""], []⟩ [] e = false := by
      unfold solidSets
      split
      · simp [solidHit]
      · rfl
    rw [this] at hsets
    exact absurd hsets (by simp)
  · intro nv hnv
    rw [show findSubmit [textInput "RH_percent" ""] = none from by
      with_unfolding_all rfl] at hnv
    exact absurd hnv (by simp)

/-- C5 counterexample: the claim says each requested solid sets at most
one field.  With solids `["ice"]` and two unchecked checkboxes `solid1`
and `solid2`, both carrying value `Ice`, the single solid label sets
*both* payload entries (neither key is present when no solids are
requested). -/
theorem C5_counterexample :
    dget? (form_payload ⟨[checkBox "solid1" "Ice", checkBox "solid2" "Ice"], []⟩
        "298.0" "0.5" [] ["ice"]) "solid1" = some "Ice" ∧
    dget? (form_payload ⟨[checkBox "solid1" "Ice", checkBox "solid2" "Ice"], []⟩
        "298.0" "0.5" [] ["ice"]) "solid2" = some "Ice" ∧
    dget? (form_payload ⟨[checkBox "solid1" "Ice", checkBox "solid2" "Ice"], []⟩
        "298.0" "0.5" [] []) "solid1" = none ∧
    dget? (form_payload ⟨[checkBox "solid1" "Ice", checkBox "solid2" "Ice"], []⟩
        "298.0" "0.5" [] []) "solid2" = none :=
  ⟨by with_unfolding_all rfl, by with_unfolding_all rfl,
   by with_unfolding_all rfl, by with_unfolding_all rfl⟩

/-- C5 (amended): the solids matching is per *field*, not per solid: when
solids are requested, every named checkbox/radio input matched by some
solid label (in its name, value attribute or label text) gets its payload
entry set to its declared value (`"on"` when absent) — so one solid label
may set several fields.  The per-field inner loop stops at the first
matching solid, which only decides that the assignment happens.  (The
hypotheses pin the final entry: all matched inputs sharing the name agree
on the value, and the submit control does not reuse the name.) -/
theorem C5_solids_per_field (form : Form) (tS rS : String)
    (species : List (String × String)) (solids : List String) (e : Elem)
    (n : String)
    (hs : ¬ solids.isEmpty = true) (he : e ∈ form.elems)
    (hset : solidSets form solids e = true) (hn : getName? e = some n)
    (huniq : ∀ e2 ∈ form.elems, solidSets form solids e2 = true →
      getName? e2 = some n → e2.value?.getD "on" = e.value?.getD "on")
    (hsub : ∀ nv, findSubmit form.elems = some nv → nv.1 ≠ n) :
    dget? (form_payload form tS rS species solids) n
      = some (e.value?.getD "on") := by
  simp only [form_payload]
  exact stageSubmit_keeps (stageSolids_sets hs he hset hn huniq) hsub

/-- C5 witness: the first checkbox of the counterexample form is set via
the per-field rule. -/
theorem C5_solids_per_field_witness :
    dget? (form_payload ⟨[checkBox "solid1" "Ice", checkBox "solid2" "Ice"], []⟩
        "298.0" "0.5" [] ["ice"]) "solid1" = some "Ice" := by
  refine C5_solids_per_field _ "298.0" "0.5" [] ["ice"]
    (checkBox "solid1" "Ice") "solid1"
    (by simp) (by simp) (by with_unfolding_all rfl)
    (by with_unfolding_all rfl) ?_ ?_
  · intro e2 he2 hs2 hn2
    rcases List.mem_cons.mp he2 with rfl | he2
    · rfl
    · rcases List.mem_cons.mp he2 with rfl | he2
      · rw [show getName? (checkBox "solid2" "Ice") = some "solid2" from by
          with_unfolding_all rfl] at hn2
        exact absurd (Option.some_inj.mp hn2) (by decide)
      · simp at he2
  · intro nv hnv
    rw [show findSubmit [checkBox "solid1" "Ice", checkBox "solid2" "Ice"]
        = none from by with_unfolding_all rfl] at hnv
    exact absurd hnv (by simp)

/-- When the species were already placed (`pp.2` nonempty), the generic
fallback stage returns the payload unchanged. -/
theorem stageGeneric_skip {species : List (String × String)}
    {pp : Payload × List String} (h : ¬ pp.2 = []) :
    stageGeneric species pp = pp.1 := by
  unfold stageGeneric
  rw [if_neg (fun hc => h hc.2)]

/-- C8 counterexample: the claim says the payload maps `water_var` to
`str(rh)` for *every* parameter set, but the later exact-match species
rule can overwrite it: with a species labelled `water_var` the final
entry is the species concentration, not the RH string. -/
theorem C8_counterexample :
    dget? (form_payload ⟨[textInput "water_var" ""], []⟩ "298.0" "0.5"
        [("water_var", "5")] []) "water_var" = some "5" ∧
    ¬ ("5" : String) = "0.5" :=
  ⟨by with_unfolding_all rfl, by decide⟩

/-- C8 (amended): for a form with a field named `water_var`, the mapper
sets `water_var` to the decimal string of relativeHumidity and forces
`interactive_type` to `"2"`, provided no later rule retargets either key:
no species label equals `water_var` or `interactive_type`
case-insensitively, no requested solid matches an input of either name,
and the submit control uses neither name. -/
theorem C8_water_interactive (form : Form) (tS rS : String)
    (species : List (String × String)) (solids : List String)
    (hseed : (dget? (seedPayload form) "water_var").isSome = true)
    (hsp : ∀ kv ∈ species,
      ¬ kv.1.toLower = "water_var" ∧ ¬ kv.1.toLower = "interactive_type")
    (hsol : ∀ e ∈ form.elems, solidSets form solids e = true →
      getName? e ≠ some "water_var" ∧ getName? e ≠ some "interactive_type")
    (hsub : ∀ nv, findSubmit form.elems = some nv →
      nv.1 ≠ "water_var" ∧ nv.1 ≠ "interactive_type") :
    dget? (form_payload form tS rS species solids) "water_var" = some rS ∧
      dget? (form_payload form tS rS species solids) "interactive_type"
        = some "2" := by
  have hnotm : ¬ (("water_var" : String) ∈ (seedPayload form).map Prod.fst ∧
      (tempMatch "water_var" = true ∨ rhMatch "water_var" = true)) := by
    intro hc
    rcases hc.2 with ht | hr
    · rw [show tempMatch "water_var" = false from by with_unfolding_all rfl] at ht
      exact absurd ht (by simp)
    · rw [show rhMatch "water_var" = false from by with_unfolding_all rfl] at hr
      exact absurd hr (by simp)
  have h1 : (dget? (stageTempRH tS rS (seedPayload form)) "water_var").isSome
      = true := by
    rw [stageTempRH_get, if_neg hnotm]
    exact hseed
  have h2 := @stageWater_water_var rS _ h1
  have hspw : ∀ kv ∈ species, ¬ ("water_var" : String).toLower = kv.1.toLower := by
    intro kv hkv h0
    exact (hsp kv hkv).1 (h0.symm.trans (by with_unfolding_all rfl))
  have hspi : ∀ kv ∈ species,
      ¬ ("interactive_type" : String).toLower = kv.1.toLower := by
    intro kv hkv h0
    exact (hsp kv hkv).2 (h0.symm.trans (by with_unfolding_all rfl))
  constructor
  · simp only [form_payload]
    refine stageSubmit_keeps ?_ (fun nv h => (hsub nv h).1)
    rw [stageSolids_frame (fun e he hs => (hsol e he hs).1)]
    refine stageEnsure_keeps ?_
    rw [stageGeneric_frame (show matchName "water_var"
        ["species", "conc", "concentration", "mole"] = false from by
        with_unfolding_all rfl),
      stageTextarea_frame (show matchName "water_var"
        ["species", "conc", "concentration", "input"] = false from by
        with_unfolding_all rfl),
      stageSpeciesExact_frame hspw]
    exact h2.1
  · simp only [form_payload]
    refine stageSubmit_keeps ?_ (fun nv h => (hsub nv h).2)
    rw [stageSolids_frame (fun e he hs => (hsol e he hs).2)]
    refine stageEnsure_keeps ?_
    rw [stageGeneric_frame (show matchName "interactive_type"
        ["species", "conc", "concentration", "mole"] = false from by
        with_unfolding_all rfl),
      stageTextarea_frame (show matchName "interactive_type"
        ["species", "conc", "concentration", "input"] = false from by
        with_unfolding_all rfl),
      stageSpeciesExact_frame hspi]
    exact h2.2

/-- C8 witness: a one-field form `water_var` with no species and no
solids gets `water_var = "0.5"` and `interactive_type = "2"`. -/
theorem C8_water_interactive_witness :
    dget? (form_payload ⟨[textInput "water_var" ""], []⟩ "298.0" "0.5" [] [])
        "water_var" = some "0.5" ∧
      dget? (form_payload ⟨[textInput "water_var" ""], []⟩ "298.0" "0.5" [] [])
        "interactive_type" = some "2" := by
  refine C8_water_interactive _ "298.0" "0.5" [] []
    (by with_unfolding_all rfl) (by simp) ?_ ?_
  · intro e he hs
    have : solidSets ⟨[textInput "water_var" ""], []⟩ [] e = false := by
      unfold solidSets
      split
      · simp [solidHit]
      · rfl
    rw [this] at hs
    exact absurd hs (by simp)
  · intro nv hnv
    rw [show findSubmit [textInput "water_var" ""] = none from by
      with_unfolding_all rfl] at hnv
    exact absurd hnv (by simp)

/-- C7 counterexample: the fallback takes the *first* qualifying
textarea, not `species_input` specifically.  With a textarea `conc_box`
before `species_input` (neither `Na+` nor `Cl-` names any field), the
joined block lands in `conc_box` and `species_input` keeps its seeded
empty default, contradicting the claim. -/
theorem C7_counterexample :
    dget? (form_payload ⟨[textArea "conc_box" "", textArea "species_input" ""], []⟩
        "298.0" "0.5" [("Na+", "0.1"), ("Cl-", "0.1")] []) "species_input"
      = some "" ∧
    dget? (form_payload ⟨[textArea "conc_box" "", textArea "species_input" ""], []⟩
        "298.0" "0.5" [("Na+", "0.1"), ("Cl-", "0.1")] []) "conc_box"
      = some "Na+ 0.1\nCl- 0.1" ∧
    ¬ ("" : String) = "Na+ 0.1\nCl- 0.1" :=
  ⟨by with_unfolding_all rfl, by with_unfolding_all rfl, by decide⟩

/-- C7 (amended): when no seeded field name matches a species label
case-insensitively, no species label is `interactive_type`, and the
*first* qualifying textarea of the form is named `m`, the mapper puts the
newline-joined `"<label> <value>"` block of all species into `m` (and the
solids/submit rules do not retarget `m`). -/
theorem C7_textarea_block (form : Form) (tS rS : String)
    (species : List (String × String)) (solids : List String) (m : String)
    (hl : ¬ speciesLines species = "")
    (hfind : findQualTextarea form.elems = some m)
    (hsp : ∀ kv ∈ species, ∀ k ∈ (seedPayload form).map Prod.fst,
      ¬ k.toLower = kv.1.toLower)
    (hit : ∀ kv ∈ species, ¬ kv.1.toLower = "interactive_type")
    (hsol : ∀ e ∈ form.elems, solidSets form solids e = true → getName? e ≠ some m)
    (hsub : ∀ nv, findSubmit form.elems = some nv → nv.1 ≠ m) :
    dget? (form_payload form tS rS species solids) m
      = some (speciesLines species) := by
  have hskip : stageSpeciesExact species
      (stageWater rS (stageTempRH tS rS (seedPayload form)))
      = (stageWater rS (stageTempRH tS rS (seedPayload form)), []) := by
    refine stageSpeciesExact_skip ?_
    intro kv hkv k hk
    rcases mem_keys_stageWater hk with h2 | rfl
    · rw [keys_stageTempRH] at h2
      exact hsp kv hkv k h2
    · intro h0
      exact hit kv hkv (h0.symm.trans (by with_unfolding_all rfl))
  have hne : ¬ (species.map Prod.fst) = [] := by
    cases species with
    | nil => exact absurd (by with_unfolding_all rfl) hl
    | cons kv t => simp
  simp only [form_payload]
  refine stageSubmit_keeps ?_ hsub
  rw [stageSolids_frame hsol]
  refine stageEnsure_keeps ?_
  rw [hskip, stageTextarea_sets hl hfind, stageGeneric_skip hne]
  exact dget_dset_self _ _ _

/-- C7 witness: the claim scenario with `species_input` as the only
(hence first) qualifying textarea does get the joined block. -/
theorem C7_textarea_block_witness :
    dget? (form_payload ⟨[textArea "species_input" ""], []⟩ "298.0" "0.5"
        [("Na+", "0.1"), ("Cl-", "0.1")] []) "species_input"
      = some "Na+ 0.1\nCl- 0.1" := by
  refine (show speciesLines [("Na+", "0.1"), ("Cl-", "0.1")] = "Na+ 0.1\nCl- 0.1"
      from by with_unfolding_all rfl) ▸
    C7_textarea_block _ "298.0" "0.5" _ [] "species_input"
      ?_ (by with_unfolding_all rfl)
      (of_decide_eq_true (by with_unfolding_all rfl))
      (of_decide_eq_true (by with_unfolding_all rfl)) ?_ ?_
  · rw [show speciesLines [("Na+", "0.1"), ("Cl-", "0.1")] = "Na+ 0.1\nCl- 0.1"
      from by with_unfolding_all rfl]
    decide
  · intro e he hs
    have : solidSets ⟨[textArea "species_input" ""], []⟩ [] e = false := by
      unfold solidSets
      split
      · simp [solidHit]
      · rfl
    rw [this] at hs
    exact absurd hs (by simp)
  · intro nv hnv
    rw [show findSubmit [textArea "species_input" ""] = none from by
      with_unfolding_all rfl] at hnv
    exact absurd hnv (by simp)

/-- C6 counterexample: the generic fallback seeds `T` with the
temperature string, but the species fold runs afterwards and overwrites
it: a species labelled `T` leaves `T` holding the concentration, so "T
maps to the decimal string of temperatureK" does not hold for every
parameter set. -/
theorem C6_counterexample :
    dget? (post_to_aim_payload none "298.0" "0.5" [("T", "5")] []) "T"
      = some "5" ∧
    ¬ ("5" : String) = "298.0" :=
  ⟨by with_unfolding_all rfl, by decide⟩

/-- C6 (amended): with no form, the pipeline submits exactly the generic
`build_payload` (the solids argument is ignored) and still returns a
parse result.  Provided no trimmed species label collides with the
reserved keys `Temperature`/`T`/`RH`/`submit` and the trimmed labels are
distinct, that payload maps `Temperature` and `T` to the temperature
string, `RH` to the humidity string, each trimmed species label to its
concentration string, and `submit` to `"Run model"`; parsing the
server's response always succeeds. -/
theorem C6_generic_fallback (tS rS : String)
    (species : List (String × String)) (solids : List String)
    (server : Payload → String)
    (hres : ∀ kv ∈ species,
      ¬ (pyStripStr kv.1) = "Temperature" ∧ ¬ (pyStripStr kv.1) = "T" ∧
        ¬ (pyStripStr kv.1) = "RH" ∧ ¬ (pyStripStr kv.1) = "submit")
    (hnd : (species.map (fun kv => (pyStripStr kv.1))).Nodup) :
    post_to_aim_payload none tS rS species solids
        = build_payload tS rS species ∧
    dget? (build_payload tS rS species) "Temperature" = some tS ∧
    dget? (build_payload tS rS species) "T" = some tS ∧
    dget? (build_payload tS rS species) "RH" = some rS ∧
    (∀ kv ∈ species,
      dget? (build_payload tS rS species) (pyStripStr kv.1) = some kv.2) ∧
    dget? (build_payload tS rS species) "submit" = some "Run model" ∧
    (∃ r, run_and_parse none server tS rS species solids = Except.ok r) := by
  have hbase : ∀ (j : String) (v : Option String),
      dget? ([("Temperature", tS), ("T", tS), ("RH", rS)] : Payload) j = v →
      (∀ kv ∈ species, ¬ (pyStripStr kv.1) = j) →
      dget? (species.foldl buildStep [("Temperature", tS), ("T", tS), ("RH", rS)]) j
        = v := by
    intro j v hv hj
    rw [build_fold_frame hj]
    exact hv
  refine ⟨rfl, ?_, ?_, ?_, ?_, ?_, ?_⟩
  · simp only [build_payload]
    exact dget_dsetdefault_keeps
      (hbase "Temperature" (some tS) (by with_unfolding_all rfl)
        (fun kv hkv => (hres kv hkv).1)) "submit" "Run model"
  · simp only [build_payload]
    exact dget_dsetdefault_keeps
      (hbase "T" (some tS) (by with_unfolding_all rfl)
        (fun kv hkv => (hres kv hkv).2.1)) "submit" "Run model"
  · simp only [build_payload]
    exact dget_dsetdefault_keeps
      (hbase "RH" (some rS) (by with_unfolding_all rfl)
        (fun kv hkv => (hres kv hkv).2.2.1)) "submit" "Run model"
  · intro kv hkv
    simp only [build_payload]
    exact dget_dsetdefault_keeps (build_fold_get hkv hnd) "submit" "Run model"
  · simp only [build_payload]
    exact dget_dsetdefault_none "Run model"
      (hbase "submit" none (by with_unfolding_all rfl)
        (fun kv hkv => (hres kv hkv).2.2.2))
  · exact ⟨_, parse_ok _⟩

/-- C6 witness: one species `Na+` and a constant server: the generic
payload holds all five entries and the pipeline returns a result. -/
theorem C6_generic_fallback_witness :
    post_to_aim_payload none "298.0" "0.5" [("Na+", "0.1")] []
        = build_payload "298.0" "0.5" [("Na+", "0.1")] ∧
    dget? (build_payload "298.0" "0.5" [("Na+", "0.1")]) "Temperature"
      = some "298.0" ∧
    dget? (build_payload "298.0" "0.5" [("Na+", "0.1")]) "T" = some "298.0" ∧
    dget? (build_payload "298.0" "0.5" [("Na+", "0.1")]) "RH" = some "0.5" ∧
    (∀ kv ∈ ([("Na+", "0.1")] : List (String × String)),
      dget? (build_payload "298.0" "0.5" [("Na+", "0.1")]) (pyStripStr kv.1)
        = some kv.2) ∧
    dget? (build_payload "298.0" "0.5" [("Na+", "0.1")]) "submit"
      = some "Run model" ∧
    (∃ r, run_and_parse none (fun _ => "x") "298.0" "0.5" [("Na+", "0.1")] []
      = Except.ok r) :=
  C6_generic_fallback "298.0" "0.5" [("Na+", "0.1")] [] (fun _ => "x")
    (of_decide_eq_true (by with_unfolding_all rfl)) (by simp)

/-! ## C9 lemmas: a `_NUMBER`-shaped literal is captured exactly -/

/-- `toLower` is the identity on ASCII digits. -/
theorem digit_toLower {c : Char} (h : digitC c = true) : c.toLower = c := by
  simp only [digitC, decide_eq_true_eq] at h
  obtain ⟨h1, h2⟩ := h
  have h2n : c.toNat ≤ 57 := (Char.le_def).mp h2
  unfold Char.toLower
  rw [if_neg]
  intro hc
  omega

/-- No `_NUMBER` character case-folds to `p` or `t`, so the scalar
patterns cannot fire inside an emitted number. -/
theorem tokChar_toLower_ne {c : Char} (h : tokChar c = true) :
    ¬ c.toLower = 'p' ∧ ¬ c.toLower = 't' := by
  simp only [tokChar, Bool.decide_or, Bool.or_eq_true, decide_eq_true_eq] at h
  rcases h with h | rfl | rfl | rfl | rfl | rfl
  · rw [digit_toLower h]
    constructor <;> rintro rfl <;> revert h <;> decide
  all_goals exact ⟨by decide, by decide⟩

/-- A `_NUMBER`-shaped token is nonempty. -/
theorem tokParts_ne_nil {tok : List Char} (h : TokParts tok) : tok ≠ [] := by
  obtain ⟨sgn, ids, fds, ex, rfl, hsgn, -, -, hif, -⟩ := h
  rcases hsgn with rfl | rfl | rfl
  · rcases hi : ids with _ | ⟨c, t⟩
    · have hfds : fds ≠ [] := hif hi
      have hfe : fds.isEmpty = false := by
        rcases fds with _ | _
        · exact absurd rfl hfds
        · rfl
      simp [hfe]
    · simp
  · simp
  · simp

theorem numSplitSign_nosign {l : List Char}
    (h : l = [] ∨ ∃ c t, l = c :: t ∧ ¬ (c = '+' ∨ c = '-')) :
    numSplitSign l = ([], l) := by
  rcases h with rfl | ⟨c, t, rfl, hc⟩
  · rfl
  · simp [numSplitSign, hc]

/-- `expTok` on a well-shaped exponent followed by a newline (or nothing)
consumes exactly the exponent. -/
theorem expTok_exact {ex r : List Char} (hex : ExpShape ex)
    (hr : r = [] ∨ ∃ t, r = '\n' :: t) :
    expTok (ex ++ r) = (ex, r) := by
  have hrd : r = [] ∨ ∃ c t, r = c :: t ∧ digitC c = false := by
    rcases hr with rfl | ⟨t, rfl⟩
    · exact Or.inl rfl
    · exact Or.inr ⟨'\n', t, rfl, by decide⟩
  rcases hex with rfl | ⟨c, sg, eds, rfl, hc, hsg, hne, hdig⟩
  · rcases hr with rfl | ⟨t, rfl⟩
    · rfl
    · simp [expTok]
  · have hed : takeW digitC (eds ++ r) = (eds, r) := takeW_split hdig hrd
    rcases heds : eds with _ | ⟨d, ds⟩
    · exact absurd heds hne
    subst heds
    have hd : digitC d = true := hdig d (by simp)
    have hdn := digit_ne hd
    have hnotsigned : ¬ (d = '+' ∨ d = '-') := by
      rintro (rfl | rfl)
      · exact hdn.1 rfl
      · exact hdn.2.1 rfl
    have hed2 : takeW digitC (d :: (ds ++ r)) = (d :: ds, r) := by
      simpa using hed
    rcases hsg with rfl | rfl | rfl
    · simp only [List.singleton_append, List.nil_append, List.cons_append,
        List.append_assoc]
      simp only [expTok]
      rw [if_pos hc, if_neg hnotsigned, hed2]
      simp
    · simp only [List.singleton_append, List.nil_append, List.cons_append,
        List.append_assoc]
      simp only [expTok]
      rw [if_pos hc, if_pos (Or.inl trivial), hed2]
      simp
    · simp only [List.singleton_append, List.nil_append, List.cons_append,
        List.append_assoc]
      simp only [expTok]
      rw [if_pos hc, if_pos (Or.inr trivial), hed2]
      simp

/-- `numToken` on a `_NUMBER`-shaped token followed by a newline (or by
the end of the text) matches exactly the token. -/
theorem numToken_exact {tok r : List Char} (h : TokParts tok)
    (hr : r = [] ∨ ∃ t, r = '\n' :: t) :
    numToken (tok ++ r) = some (tok, r) := by
  obtain ⟨sgn, ids, fds, ex, rfl, hsgn, hids, hfds, hif, hex⟩ := h
  have hrd : r = [] ∨ ∃ c t, r = c :: t ∧ digitC c = false := by
    rcases hr with rfl | ⟨t, rfl⟩
    · exact Or.inl rfl
    · exact Or.inr ⟨'\n', t, rfl, by decide⟩
  have hexr : expTok (ex ++ r) = (ex, r) := expTok_exact hex hr
  have hexd : ex ++ r = [] ∨ ∃ c t, ex ++ r = c :: t ∧ digitC c = false := by
    rcases expShape_head_not_digit hex with hnil | ⟨c, t, hct, hc⟩
    · rw [hnil]
      simpa using hrd
    · exact Or.inr ⟨c, t ++ r, by rw [hct]; simp, hc⟩
  by_cases hfe : fds = []
  · subst hfe
    have hidne : ids ≠ [] := fun h0 => (hif h0) rfl
    have hidse : ids.isEmpty = false := by
      rcases ids with _ | _
      · exact absurd rfl hidne
      · rfl
    have hip : takeW digitC (ids ++ (ex ++ r)) = (ids, ex ++ r) :=
      takeW_split hids hexd
    have hsn : numSplitSign (sgn ++ (ids ++ (ex ++ r)))
        = (sgn, ids ++ (ex ++ r)) := by
      rcases hsgn with rfl | rfl | rfl
      · rw [List.nil_append]
        refine numSplitSign_nosign ?_
        rcases hi : ids with _ | ⟨i, is⟩
        · exact absurd hi hidne
        · refine Or.inr ⟨i, is ++ (ex ++ r), by rfl, ?_⟩
          have hdn := digit_ne (hids i (by rw [hi]; simp))
          rintro (rfl | rfl)
          · exact hdn.1 rfl
          · exact hdn.2.1 rfl
      · simp [numSplitSign]
      · simp [numSplitSign]
    simp only [List.isEmpty_nil, if_true, List.append_nil, List.nil_append,
      List.append_assoc]
    simp only [numToken, hsn, hip]
    rcases hex with rfl | ⟨ec, sg, eds, rfl, hecc, hsg2, hedne, hdig2⟩
    · rcases hr with rfl | ⟨t, rfl⟩
      · simp [hidse]
      · have her : expTok ('\n' :: t) = ([], '\n' :: t) := by simp [expTok]
        simp [hidse, her]
    · have hnotdot : ¬ ec = '.' := by
        rcases hecc with rfl | rfl <;> decide
      simp only [List.cons_append, List.append_assoc] at hexr ⊢
      simp [hnotdot, hidse, hexr]
  · have hfne : fds.isEmpty = false := by
      rcases fds with _ | _
      · exact absurd rfl hfe
      · rfl
    have hip : takeW digitC (ids ++ ('.' :: (fds ++ (ex ++ r))))
        = (ids, '.' :: (fds ++ (ex ++ r))) :=
      takeW_split hids (Or.inr ⟨'.', fds ++ (ex ++ r), rfl, by decide⟩)
    have hfp : takeW digitC (fds ++ (ex ++ r)) = (fds, ex ++ r) :=
      takeW_split hfds hexd
    have hsn : numSplitSign (sgn ++ (ids ++ ('.' :: (fds ++ (ex ++ r)))))
        = (sgn, ids ++ ('.' :: (fds ++ (ex ++ r)))) := by
      rcases hsgn with rfl | rfl | rfl
      · rw [List.nil_append]
        refine numSplitSign_nosign ?_
        rcases hi : ids with _ | ⟨i, is⟩
        · exact Or.inr ⟨'.', fds ++ (ex ++ r), by rfl, by decide⟩
        · refine Or.inr ⟨i, is ++ ('.' :: (fds ++ (ex ++ r))), by rfl, ?_⟩
          have hdn := digit_ne (hids i (by rw [hi]; simp))
          rintro (rfl | rfl)
          · exact hdn.1 rfl
          · exact hdn.2.1 rfl
      · simp [numSplitSign]
      · simp [numSplitSign]
    have hdotf : (if fds.isEmpty then [] else '.' :: fds) = '.' :: fds := by
      simp [hfne]
    simp only [hdotf, List.cons_append, List.nil_append, List.append_assoc]
    simp only [numToken]
    rw [hsn, hip]
    simp [hfp, hfne, hexr, hfe]

/-- `tryPhCore` fails where the next character does not case-fold to
`p` (or at the end of the text). -/
theorem tryPhCore_none {cs : List Char}
    (h : cs = [] ∨ ∃ c t, cs = c :: t ∧ ¬ c.toLower = 'p') :
    tryPh.tryPhCore cs = none := by
  rcases h with rfl | ⟨c, t, rfl, hc⟩
  · rfl
  · rcases t with _ | ⟨c2, t2⟩
    · rfl
    · simp only [tryPh.tryPhCore]
      rw [if_neg (fun h0 => hc h0.1)]

theorem tryPh_none {prev : Option Char} {cs : List Char}
    (h : tryPh.tryPhCore cs = none) : tryPh prev cs = none := by
  rcases prev with _ | c
  · exact h
  · show (if pyWord c then none else tryPh.tryPhCore cs) = none
    split
    · rfl
    · exact h

/-- `re.search` for the ph pattern skips a stretch of text containing no
`p`, updating the word-boundary character. -/
theorem searchPh_append (pre : List Char) :
    ∀ (prev : Option Char) (rest : List Char),
      (∀ c ∈ pre, ¬ c.toLower = 'p') →
      searchPh prev (pre ++ rest)
        = searchPh (pre.foldl (fun _ c => some c) prev) rest := by
  induction pre with
  | nil => intro prev rest _; rfl
  | cons c t ih =>
    intro prev rest h
    have hcons : (c :: t) ++ rest = c :: (t ++ rest) := by simp
    rw [hcons, searchPh,
      tryPh_none (tryPhCore_none (Or.inr ⟨c, t ++ rest, rfl, h c (by simp)⟩))]
    exact ih (some c) rest (fun x hx => h x (by simp [hx]))

/-- The ph search fails on text containing no `p` at all. -/
theorem searchPh_none_of : ∀ {cs : List Char} (prev : Option Char),
    (∀ c ∈ cs, ¬ c.toLower = 'p') → searchPh prev cs = none := by
  intro cs
  induction cs with
  | nil => intro prev _; rfl
  | cons c t ih =>
    intro prev h
    rw [searchPh,
      tryPh_none (tryPhCore_none (Or.inr ⟨c, t, rfl, h c (by simp)⟩))]
    exact ih (some c) (fun x hx => h x (by simp [hx]))

/-- `tryGibbs` fails where the next character does not case-fold to `t`. -/
theorem tryGibbs_none {c : Char} {t : List Char} (hc : ¬ c.toLower = 't') :
    tryGibbs (c :: t) = none := by
  simp only [tryGibbs, matchCI]
  rw [if_neg hc]

/-- The gibbs search fails on text containing no `t` at all. -/
theorem searchGibbs_none_of : ∀ {cs : List Char},
    (∀ c ∈ cs, ¬ c.toLower = 't') → searchGibbs cs = none := by
  intro cs
  induction cs with
  | nil => intro _; rfl
  | cons c t ih =>
    intro h
    rw [searchGibbs, tryGibbs_none (h c (by simp))]
    exact ih (fun x hx => h x (by simp [hx]))

/-- A successful `tryGibbs` at the head settles the search. -/
theorem searchGibbs_head {l tok : List Char} (h : tryGibbs l = some tok) :
    searchGibbs l = some tok := by
  rcases l with _ | ⟨c, t⟩
  · rw [show tryGibbs [] = none from rfl] at h
    exact absurd h (by simp)
  · rw [searchGibbs, h]

/-- The gibbs pattern captures exactly an emitted number standing after
`"Total Gibbs Free Energy = "` and before a newline (or the end). -/
theorem gibbs_capture {s r : List Char} (hs : TokParts s)
    (hr : r = [] ∨ ∃ t, r = '\n' :: t) :
    searchGibbs (("Total Gibbs Free Energy = " : String).data ++ (s ++ r))
      = some s := by
  have hne : s ≠ [] := tokParts_ne_nil hs
  have hhead : ∃ c t, s = c :: t ∧ pySpace c = false := by
    rcases hcs : s with _ | ⟨c, t⟩
    · exact absurd hcs hne
    · refine ⟨c, t, rfl, tok_char_not_space (tokParts_chars hs c ?_)⟩
      rw [hcs]
      simp
  obtain ⟨c, t, hseq, hcsp⟩ := hhead
  refine searchGibbs_head ?_
  have h1 : tryGibbs (("Total Gibbs Free Energy = " : String).data ++ (s ++ r))
      = tailNum ((" Free Energy = " : String).data ++ (s ++ r)) := by
    with_unfolding_all rfl
  have h2 : scanColonEq ((" Free Energy = " : String).data ++ (s ++ r))
      = some (' ' :: (s ++ r)) := by
    with_unfolding_all rfl
  rw [h1]
  simp only [tailNum, h2]
  have h4 : takeW pySpace (' ' :: (s ++ r)) = ([' '], s ++ r) := by
    rw [takeW_cons_pos _ (by decide), takeW_none (Or.inr ⟨c, t ++ r, by rw [hseq]; simp, ?_⟩)]
    · exact hcsp
  rw [h4, numToken_exact hs hr]

/-- The ph pattern captures exactly an emitted number standing after
`"pH = "` at the end of the text, past a non-word boundary. -/
theorem ph_capture {prev : Option Char} {s : List Char} (hs : TokParts s)
    (hprev : ∀ c, prev = some c → pyWord c = false) :
    searchPh prev (("pH = " : String).data ++ s) = some s := by
  have hne : s ≠ [] := tokParts_ne_nil hs
  have hhead : ∃ c t, s = c :: t ∧ pySpace c = false := by
    rcases hcs : s with _ | ⟨c, t⟩
    · exact absurd hcs hne
    · refine ⟨c, t, rfl, tok_char_not_space (tokParts_chars hs c ?_)⟩
      rw [hcs]
      simp
  obtain ⟨c, t, hseq, hcsp⟩ := hhead
  have hcore : tryPh.tryPhCore (("pH = " : String).data ++ s)
      = tailNum ((" = " : String).data ++ s) := by
    with_unfolding_all rfl
  have h2 : scanColonEq ((" = " : String).data ++ s) = some (' ' :: s) := by
    with_unfolding_all rfl
  have htail : tailNum ((" = " : String).data ++ s) = some s := by
    simp only [tailNum, h2]
    have h4 : takeW pySpace (' ' :: s) = ([' '], s) := by
      rw [takeW_cons_pos _ (by decide), takeW_none (Or.inr ⟨c, t, hseq, hcsp⟩)]
    rw [h4, show s = s ++ [] from by simp, numToken_exact hs (Or.inl rfl)]
    simp
  have htry : tryPh prev (("pH = " : String).data ++ s) = some s := by
    rcases prev with _ | c0
    · show tryPh.tryPhCore (("pH = " : String).data ++ s) = some s
      rw [hcore, htail]
    · have hw := hprev c0 rfl
      show (if pyWord c0 then none
        else tryPh.tryPhCore (("pH = " : String).data ++ s)) = some s
      rw [if_neg (by simp [hw]), hcore, htail]
  have hconsform : (("pH = " : String).data ++ s)
      = 'p' :: (("H = " : String).data ++ s) := by
    with_unfolding_all rfl
  rw [hconsform] at htry ⊢
  rw [searchPh, htry]

/-- C9 counterexample: pH can be produced as `inf` (a 309-digit literal
overflows `float`), and the standard decimal string of `inf` is `"inf"`,
which the `_NUMBER` capture cannot match: re-parsing the re-emitted line
`"pH = inf"` loses the pH entry, so scalar parsing is not idempotent
under re-emission. -/
theorem C9_counterexample :
    parse_aim_output "pH = 200000000000000000000000000000000000000000000000000000000000000000000000000000000000000000000000000000000000000000000000000000000000000000000000000000000000000000000000000000000000000000000000000000000000000000000000000000000000000000000000000000000000000000000000000000000000000000000000000000000000000000000"
      = .ok ⟨none, some (.num .inf), [], none⟩ ∧
    parse_aim_output (String.mk (reEmitScalars none (some ("inf" : String).data)))
      = .ok ⟨none, none, [], some "pH = inf"⟩ ∧
    ¬ (none : Option PyVal) = some (.num .inf) :=
  ⟨by with_unfolding_all rfl, by with_unfolding_all rfl, by simp⟩

/-- Evaluation helpers for the extraction wrappers. -/
theorem gibbsOf_eval {txt tok : List Char} {f : PyFloat}
    (h1 : searchGibbs txt = some tok) (h2 : pyFloat? tok = some f) :
    gibbsOf txt = some f := by
  simp only [gibbsOf, h1, h2]

theorem phOf_eval {txt tok : List Char} {f : PyFloat}
    (h1 : searchPh none txt = some tok) (h2 : pyFloat? tok = some f) :
    phOf txt = some (.num f) := by
  simp only [phOf, h1, h2]

/-- C9 (amended): re-emitting the scalar entries as
`"<label> = <value>"` lines and re-parsing recovers exactly the same
gibbs and pH values, provided each emitted value string is a
`_NUMBER`-shaped literal denoting the stored float — which the standard
decimal string of a float is exactly when the float is finite
(`str(inf) = "inf"` matches no `_NUMBER`). -/
theorem C9_scalar_roundtrip (txt : String) (r : AimResults)
    (_hr : parse_aim_output txt = .ok r)
    (g p : Option (PyFloat × List Char))
    (hg : r.gibbs = g.map Prod.fst)
    (hp : r.pH = p.map fun fp => PyVal.num fp.1)
    (hgtok : ∀ fp, g = some fp → TokParts fp.2 ∧ pyFloat? fp.2 = some fp.1)
    (hptok : ∀ fp, p = some fp → TokParts fp.2 ∧ pyFloat? fp.2 = some fp.1) :
    ∃ r2, parse_aim_output (String.mk (reEmitScalars (g.map Prod.snd)
        (p.map Prod.snd))) = .ok r2 ∧ r2.gibbs = r.gibbs ∧ r2.pH = r.pH := by
  have hpre1p : ∀ c ∈ ("Total Gibbs Free Energy = " : String).data,
      ¬ c.toLower = 'p' := by decide
  have hpre2t : ∀ c ∈ ("pH = " : String).data, ¬ c.toLower = 't' := by decide
  refine ⟨_, parse_ok _, ?_, ?_⟩
  · rw [hg]
    show gibbsOf (reEmitScalars (g.map Prod.snd) (p.map Prod.snd))
      = g.map Prod.fst
    rcases g with _ | ⟨f1, s1⟩
    · rcases p with _ | ⟨f2, s2⟩
      · rfl
      · obtain ⟨hT2, -⟩ : TokParts s2 ∧ pyFloat? s2 = some f2 :=
          hptok (f2, s2) rfl
        show gibbsOf (("pH = " : String).data ++ s2) = none
        refine gibbsOf_none (searchGibbs_none_of ?_)
        intro c hc
        rcases List.mem_append.mp hc with hc | hc
        · exact hpre2t c hc
        · exact (tokChar_toLower_ne (tokParts_chars hT2 c hc)).2
    · obtain ⟨hT1, hF1⟩ : TokParts s1 ∧ pyFloat? s1 = some f1 :=
        hgtok (f1, s1) rfl
      rcases p with _ | ⟨f2, s2⟩
      · show gibbsOf (reEmitScalars (some s1) none) = some f1
        have hsh : reEmitScalars (some s1) none
            = ("Total Gibbs Free Energy = " : String).data ++ (s1 ++ []) := by
          simp [reEmitScalars]
        rw [hsh]
        exact gibbsOf_eval (gibbs_capture hT1 (Or.inl rfl)) hF1
      · show gibbsOf (reEmitScalars (some s1) (some s2)) = some f1
        have hsh : reEmitScalars (some s1) (some s2)
            = ("Total Gibbs Free Energy = " : String).data
              ++ (s1 ++ ('\n' :: (("pH = " : String).data ++ s2))) := by
          simp [reEmitScalars]
        rw [hsh]
        exact gibbsOf_eval (gibbs_capture hT1
          (Or.inr ⟨("pH = " : String).data ++ s2, rfl⟩)) hF1
  · rw [hp]
    show phOf (reEmitScalars (g.map Prod.snd) (p.map Prod.snd))
      = p.map fun fp => PyVal.num fp.1
    rcases p with _ | ⟨f2, s2⟩
    · rcases g with _ | ⟨f1, s1⟩
      · rfl
      · obtain ⟨hT1, -⟩ : TokParts s1 ∧ pyFloat? s1 = some f1 :=
          hgtok (f1, s1) rfl
        show phOf (reEmitScalars (some s1) none) = none
        refine phOf_none (searchPh_none_of none ?_)
        intro c hc
        rcases List.mem_append.mp hc with hc | hc
        · exact hpre1p c hc
        · exact (tokChar_toLower_ne (tokParts_chars hT1 c hc)).1
    · obtain ⟨hT2, hF2⟩ : TokParts s2 ∧ pyFloat? s2 = some f2 :=
        hptok (f2, s2) rfl
      rcases g with _ | ⟨f1, s1⟩
      · show phOf (("pH = " : String).data ++ s2) = some (PyVal.num f2)
        exact phOf_eval (@ph_capture none s2 hT2 (fun c0 hc0 => by cases hc0))
          hF2
      · obtain ⟨hT1, -⟩ : TokParts s1 ∧ pyFloat? s1 = some f1 :=
          hgtok (f1, s1) rfl
        show phOf (reEmitScalars (some s1) (some s2)) = some (PyVal.num f2)
        have hsh : reEmitScalars (some s1) (some s2)
            = (("Total Gibbs Free Energy = " : String).data ++ (s1 ++ ['\n']))
              ++ (("pH = " : String).data ++ s2) := by
          simp [reEmitScalars]
        have hallp : ∀ c ∈ ("Total Gibbs Free Energy = " : String).data
            ++ (s1 ++ ['\n']), ¬ c.toLower = 'p' := by
          intro c hc
          rcases List.mem_append.mp hc with hc | hc
          · exact hpre1p c hc
          · rcases List.mem_append.mp hc with hc | hc
            · exact (tokChar_toLower_ne (tokParts_chars hT1 c hc)).1
            · rcases List.mem_singleton.mp hc with rfl
              decide
        have hfold : ((("Total Gibbs Free Energy = " : String).data
            ++ (s1 ++ ['\n'])).foldl (fun _ c => some c) (none : Option Char))
            = some '\n' := by
          simp [List.foldl_append]
        have hsp2 : searchPh none
            ((("Total Gibbs Free Energy = " : String).data ++ (s1 ++ ['\n']))
              ++ (("pH = " : String).data ++ s2)) = some s2 := by
          rw [searchPh_append _ none _ hallp, hfold]
          exact @ph_capture (some '\n') s2 hT2
            (fun c0 hc0 => by cases Option.some_inj.mp hc0; decide)
        rw [hsh]
        exact phOf_eval hsp2 hF2

/-- C9 witness: the scalars of
`"Total Gibbs Free Energy = -123\npH = 4"` survive re-emission with the
tokens `-123` and `4`. -/
theorem C9_scalar_roundtrip_witness :
    ∃ r2, parse_aim_output (String.mk (reEmitScalars
        (some ("-123" : String).data) (some ("4" : String).data)))
      = .ok r2 ∧
      r2.gibbs = some (PyFloat.finite (-123)) ∧
      r2.pH = some (PyVal.num (PyFloat.finite 4)) := by
  refine C9_scalar_roundtrip "Total Gibbs Free Energy = -123\npH = 4"
    ⟨some (.finite (-123)), some (.num (.finite 4)), [], none⟩
    (by with_unfolding_all rfl)
    (some (.finite (-123), ("-123" : String).data))
    (some (.finite 4, ("4" : String).data))
    rfl rfl ?_ ?_
  · rintro ⟨f0, s0⟩ h0
    have h1 := Option.some_inj.mp h0
    obtain ⟨rfl, rfl⟩ : PyFloat.finite (-123) = f0 ∧ ("-123" : String).data = s0 :=
      ⟨congrArg Prod.fst h1, congrArg Prod.snd h1⟩
    refine ⟨⟨['-'], ['1', '2', '3'], [], [], ?_, Or.inr (Or.inr rfl), ?_, ?_,
      ?_, Or.inl rfl⟩, ?_⟩
    · with_unfolding_all rfl
    · decide
    · simp
    · intro h2
      exact absurd h2 (by decide)
    · with_unfolding_all rfl
  · rintro ⟨f0, s0⟩ h0
    have h1 := Option.some_inj.mp h0
    obtain ⟨rfl, rfl⟩ : PyFloat.finite 4 = f0 ∧ ("4" : String).data = s0 :=
      ⟨congrArg Prod.fst h1, congrArg Prod.snd h1⟩
    refine ⟨⟨[], ['4'], [], [], ?_, Or.inl rfl, ?_, ?_, ?_, Or.inl rfl⟩, ?_⟩
    · with_unfolding_all rfl
    · decide
    · simp
    · intro h2
      exact absurd h2 (by decide)
    · with_unfolding_all rfl

end Aim
